import Mathlib

/-!
Verification development for the Marathi voter-list OCR extraction pipeline
(`voter_list_ocr.py`).  The Python source is shallowly embedded: Python
strings become `List Char`, the stateful pipeline stages become explicit
state-passing functions, Python ints become `Nat`/`Int`, Python float
arithmetic on memory statistics becomes exact `ℚ` arithmetic (all the
quantities involved are ratios of integers by powers of two and the claims
under study do not depend on float rounding).
-/

/-- Python strings are modelled as lists of Unicode code points. -/
abbrev Str := List Char

/-- Python `str.isdigit`, restricted to the two digit scripts that can occur
in this pipeline (ASCII `0-9` and Devanagari `०-९`, U+0966–U+096F); the
regular-expression character classes in the source admit no other digit
characters. -/
def pyIsDigit (c : Char) : Bool :=
  (48 ≤ c.toNat && c.toNat ≤ 57) || (2406 ≤ c.toNat && c.toNat ≤ 2415)

/-- ASCII digit test (`'0'`–`'9'`). -/
def isAsciiDigit (c : Char) : Bool :=
  48 ≤ c.toNat && c.toNat ≤ 57

/-- Python `needle in hay` substring containment. -/
def pyContains (hay needle : Str) : Bool :=
  hay.tails.any (fun t => needle.isPrefixOf t)

/-- Whitespace characters recognised by Python `str.strip` / regex `\s`
(the ASCII ones; no other whitespace occurs in the OCR alphabet). -/
def pyIsSpace (c : Char) : Bool :=
  c == ' ' || c == '\t' || c == '\n' || c == '\r' ||
  c.toNat == 11 || c.toNat == 12

/-- Python `str.strip()`: drop leading and trailing whitespace. -/
def pyStrip (s : Str) : Str :=
  ((s.dropWhile pyIsSpace).reverse.dropWhile pyIsSpace).reverse

/-! ## Sequence Validator (`validate_sequence_and_find_gaps`) -/

/-- Rendering of one missing range: a single missing value is rendered as
`"n"`, a longer gap as `"start-end"` (string appends in
`validate_sequence_and_find_gaps`). -/
def renderGap (p : Nat × Nat) : String :=
  if p.1 = p.2 then toString p.1 else toString p.1 ++ "-" ++ toString p.2

/-- One iteration of the gap-finding loop of `validate_sequence_and_find_gaps`:
the state is the list of completed missing ranges (as start/end pairs, rendered
to strings afterwards) together with the start of the currently open missing
run (`current_missing_start`). -/
def gapStep (present : Nat → Bool) :
    List (Nat × Nat) × Option Nat → Nat → List (Nat × Nat) × Option Nat
  | (acc, some s), expected =>
    if present expected then (acc ++ [(s, expected - 1)], none) else (acc, some s)
  | (acc, none), expected =>
    if present expected then (acc, none) else (acc, some expected)

/-- The `for expected in range(min_sr, max_sr + 1)` loop of
`validate_sequence_and_find_gaps` plus its trailing-range handler, producing
the missing ranges as start/end pairs. -/
def gapPairs (present : Nat → Bool) (minSr maxSr : Nat) : List (Nat × Nat) :=
  let res := (List.range' minSr (maxSr - minSr + 1)).foldl (gapStep present) ([], none)
  match res.2 with
  | some c => res.1 ++ [(c, maxSr)]
  | none => res.1

/-- Python `sorted(set(xs))`: the increasing enumeration of the distinct
values of `xs` (any correct sort of the distinct values is extensionally
this list; sortedness and stability questions do not arise on a set). -/
def pySortedSet (xs : List Nat) : List Nat :=
  xs.dedup.insertionSort (· ≤ ·)

/-- Source `validate_sequence_and_find_gaps`: from the accumulated serial numbers,
compute `(min_sr, max_sr, missing_ranges, coverage_percent)`. -/
def validateSequenceAndFindGaps (allSrNumbers : List Nat) :
    Nat × Nat × List String × ℚ :=
  if allSrNumbers = [] then (0, 0, [], 0) else
  let sortedSr := pySortedSet allSrNumbers
  if sortedSr = [] then (0, 0, [], 0) else
  let minSr := sortedSr.headD 0
  let maxSr := sortedSr.getLastD 0
  let expectedCount := maxSr - minSr + 1
  let actualCount := sortedSr.length
  let missingRanges := (gapPairs (fun e => sortedSr.contains e) minSr maxSr).map renderGap
  let coveragePercent : ℚ :=
    if 0 < expectedCount then (actualCount : ℚ) / (expectedCount : ℚ) * 100 else 0
  (minSr, maxSr, missingRanges, coveragePercent)

/-- A value `v` is covered by the loop state at position `e`: either some
completed pair contains it, or the open run (which extends up to, but not
including, `e`) contains it. -/
def gapCovers (st : List (Nat × Nat) × Option Nat) (e v : Nat) : Prop :=
  (∃ p ∈ st.1, p.1 ≤ v ∧ v ≤ p.2) ∨
  (∃ c, st.2 = some c ∧ c ≤ v ∧ v < e)

theorem gapCovers_none {acc : List (Nat × Nat)} {e v : Nat} :
    gapCovers (acc, none) e v ↔ ∃ p ∈ acc, p.1 ≤ v ∧ v ≤ p.2 := by
  unfold gapCovers
  simp

theorem gapCovers_some {acc : List (Nat × Nat)} {e v c : Nat} :
    gapCovers (acc, some c) e v ↔
      (∃ p ∈ acc, p.1 ≤ v ∧ v ≤ p.2) ∨ (c ≤ v ∧ v < e) := by
  unfold gapCovers
  simp

/-- Loop invariant of the gap-finding loop: after processing all values below
`e`, the covered values are exactly the non-present values of `[minSr, e)`,
and an open run starts inside the processed region. -/
def GapInv (present : Nat → Bool) (minSr e : Nat)
    (st : List (Nat × Nat) × Option Nat) : Prop :=
  (∀ v, gapCovers st e v ↔ (minSr ≤ v ∧ v < e ∧ present v = false)) ∧
  (∀ c, st.2 = some c → minSr ≤ c ∧ c < e)

theorem gapStep_inv (present : Nat → Bool) (minSr e : Nat)
    (acc : List (Nat × Nat)) (cur : Option Nat) (hmn : minSr ≤ e)
    (h : GapInv present minSr e (acc, cur)) :
    GapInv present minSr (e + 1) (gapStep present (acc, cur) e) := by
  obtain ⟨hcov, hopen⟩ := h
  rcases cur with _ | c
  · cases hpe : present e
    · -- value `e` absent, no open run: open a new run at `e`
      rw [show gapStep present (acc, none) e = (acc, some e) by simp [gapStep, hpe]]
      refine ⟨fun v => ?_, fun c' hc' => ?_⟩
      · rw [gapCovers_some]
        have hold := hcov v
        rw [gapCovers_none] at hold
        constructor
        · rintro (hpair | hrun)
          · have := hold.mp hpair
            exact ⟨this.1, by omega, this.2.2⟩
          · have hv : v = e := by omega
            subst hv
            exact ⟨hmn, by omega, hpe⟩
        · rintro ⟨h1, h2, h3⟩
          by_cases hv : v = e
          · subst hv; right; omega
          · left; exact hold.mpr ⟨h1, by omega, h3⟩
      · simp only at hc'
        have : e = c' := by injection hc'
        omega
    · -- value `e` present, no open run: state unchanged
      rw [show gapStep present (acc, none) e = (acc, none) by simp [gapStep, hpe]]
      refine ⟨fun v => ?_, fun c' hc' => ?_⟩
      · rw [gapCovers_none]
        have hold := hcov v
        rw [gapCovers_none] at hold
        constructor
        · intro hpair
          have := hold.mp hpair
          exact ⟨this.1, by omega, this.2.2⟩
        · rintro ⟨h1, h2, h3⟩
          by_cases hv : v = e
          · subst hv; rw [hpe] at h3; simp at h3
          · exact hold.mpr ⟨h1, by omega, h3⟩
      · simp at hc'
  · have hce := hopen c rfl
    cases hpe : present e
    · -- value `e` absent, run open: run continues
      rw [show gapStep present (acc, some c) e = (acc, some c) by simp [gapStep, hpe]]
      refine ⟨fun v => ?_, fun c' hc' => ?_⟩
      · rw [gapCovers_some]
        have hold := hcov v
        rw [gapCovers_some] at hold
        constructor
        · rintro (hpair | hrun)
          · have := hold.mp (Or.inl hpair)
            exact ⟨this.1, by omega, this.2.2⟩
          · by_cases hv : v = e
            · subst hv; exact ⟨hmn, by omega, hpe⟩
            · have := hold.mp (Or.inr ⟨hrun.1, by omega⟩)
              exact ⟨this.1, by omega, this.2.2⟩
        · rintro ⟨h1, h2, h3⟩
          by_cases hv : v = e
          · subst hv; right; omega
          · rcases hold.mpr ⟨h1, by omega, h3⟩ with hpair | hrun
            · left; exact hpair
            · right; omega
      · simp only at hc'
        have : c = c' := by injection hc'
        omega
    · -- value `e` present, run open: close the run as the pair `(c, e - 1)`
      rw [show gapStep present (acc, some c) e = (acc ++ [(c, e - 1)], none) by
        simp [gapStep, hpe]]
      refine ⟨fun v => ?_, fun c' hc' => ?_⟩
      · rw [gapCovers_none]
        have hold := hcov v
        rw [gapCovers_some] at hold
        constructor
        · rintro ⟨p, hpmem, hple⟩
          rcases List.mem_append.mp hpmem with hpold | hpnew
          · have := hold.mp (Or.inl ⟨p, hpold, hple⟩)
            exact ⟨this.1, by omega, this.2.2⟩
          · simp only [List.mem_singleton] at hpnew
            subst hpnew
            simp only at hple
            have := hold.mp (Or.inr ⟨hple.1, by omega⟩)
            exact ⟨this.1, by omega, this.2.2⟩
        · rintro ⟨h1, h2, h3⟩
          by_cases hv : v = e
          · subst hv; rw [hpe] at h3; simp at h3
          · rcases hold.mpr ⟨h1, by omega, h3⟩ with ⟨p, hpmem, hple⟩ | hrun
            · exact ⟨p, List.mem_append.mpr (Or.inl hpmem), hple⟩
            · refine ⟨(c, e - 1), List.mem_append.mpr (Or.inr (by simp)), ?_, ?_⟩
              · exact hrun.1
              · simp only
                omega
      · simp at hc'

theorem gapFold_inv (present : Nat → Bool) (minSr : Nat) :
    ∀ (n a : Nat) (st : List (Nat × Nat) × Option Nat), minSr ≤ a →
      GapInv present minSr a st →
      GapInv present minSr (a + n) ((List.range' a n).foldl (gapStep present) st) := by
  intro n
  induction n with
  | zero => intro a st _ h; simpa using h
  | succ m ih =>
    intro a st ha h
    obtain ⟨acc, cur⟩ := st
    rw [List.range'_succ, List.foldl_cons]
    have hstep := gapStep_inv present minSr a acc cur ha h
    have := ih (a + 1) (gapStep present (acc, cur) a) (by omega) hstep
    have harith : a + 1 + m = a + (m + 1) := by omega
    rwa [harith] at this

/-- Characterisation of the missing-range pairs: a value lies in one of the
computed ranges exactly when it lies in `[minSr, maxSr]` and is not present. -/
theorem gapPairs_spec (present : Nat → Bool) (minSr maxSr : Nat)
    (hle : minSr ≤ maxSr) (v : Nat) :
    (∃ p ∈ gapPairs present minSr maxSr, p.1 ≤ v ∧ v ≤ p.2) ↔
      (minSr ≤ v ∧ v ≤ maxSr ∧ present v = false) := by
  have hinit : GapInv present minSr minSr ([], none) := by
    constructor
    · intro w
      rw [gapCovers_none]
      constructor
      · rintro ⟨p, hp, _⟩
        simp at hp
      · rintro ⟨h1, h2, _⟩
        omega
    · intro c hc
      simp at hc
  have hfold := gapFold_inv present minSr (maxSr - minSr + 1) minSr ([], none)
    (le_refl minSr) hinit
  have harith : minSr + (maxSr - minSr + 1) = maxSr + 1 := by omega
  rw [harith] at hfold
  unfold gapPairs
  rcases hres : (List.range' minSr (maxSr - minSr + 1)).foldl (gapStep present) ([], none)
    with ⟨acc, cur⟩
  rw [hres] at hfold
  obtain ⟨hcov, hopen⟩ := hfold
  rcases cur with _ | c
  · simp only
    constructor
    · rintro ⟨p, hpmem, hple⟩
      have := (hcov v).mp (by rw [gapCovers_none]; exact ⟨p, hpmem, hple⟩)
      exact ⟨this.1, by omega, this.2.2⟩
    · rintro ⟨h1, h2, h3⟩
      have := (hcov v).mpr ⟨h1, by omega, h3⟩
      rw [gapCovers_none] at this
      exact this
  · simp only
    have hc := hopen c rfl
    constructor
    · rintro ⟨p, hpmem, hple⟩
      rcases List.mem_append.mp hpmem with hpold | hpnew
      · have := (hcov v).mp (by rw [gapCovers_some]; exact Or.inl ⟨p, hpold, hple⟩)
        exact ⟨this.1, by omega, this.2.2⟩
      · simp only [List.mem_singleton] at hpnew
        subst hpnew
        simp only at hple
        have := (hcov v).mp (by rw [gapCovers_some]; exact Or.inr ⟨hple.1, by omega⟩)
        exact ⟨this.1, by omega, this.2.2⟩
    · rintro ⟨h1, h2, h3⟩
      have := (hcov v).mpr ⟨h1, by omega, h3⟩
      rw [gapCovers_some] at this
      rcases this with ⟨p, hpmem, hple⟩ | hrun
      · exact ⟨p, List.mem_append.mpr (Or.inl hpmem), hple⟩
      · refine ⟨(c, maxSr), List.mem_append.mpr (Or.inr (by simp)), hrun.1, ?_⟩
        simp only
        omega

theorem mem_pySortedSet {xs : List Nat} {a : Nat} :
    a ∈ pySortedSet xs ↔ a ∈ xs :=
  ((List.perm_insertionSort (· ≤ ·) xs.dedup).mem_iff).trans List.mem_dedup

theorem sorted_pySortedSet (xs : List Nat) :
    List.Sorted (· ≤ ·) (pySortedSet xs) :=
  List.sorted_insertionSort (· ≤ ·) xs.dedup

theorem length_pySortedSet (xs : List Nat) :
    (pySortedSet xs).length = xs.dedup.length :=
  (List.perm_insertionSort (· ≤ ·) xs.dedup).length_eq

theorem sorted_le_getLast {l : List Nat} (hs : List.Sorted (· ≤ ·) l)
    (hne : l ≠ []) : ∀ y ∈ l, y ≤ l.getLast hne := by
  induction l with
  | nil => intro y hy; simp at hy
  | cons a t ih =>
    rw [List.sorted_cons] at hs
    intro y hy
    rcases List.mem_cons.mp hy with hya | hyt
    · subst hya
      cases t with
      | nil => simp
      | cons b t' =>
        rw [List.getLast_cons (by simp)]
        exact hs.1 _ (List.getLast_mem (by simp))
    · have htne : t ≠ [] := List.ne_nil_of_mem hyt
      rw [List.getLast_cons htne]
      exact ih hs.2 htne y hyt

theorem sorted_head_le {l : List Nat} (hs : List.Sorted (· ≤ ·) l)
    (hne : l ≠ []) : ∀ y ∈ l, l.head hne ≤ y := by
  cases l with
  | nil => exact absurd rfl hne
  | cons a t =>
    rw [List.sorted_cons] at hs
    intro y hy
    rcases List.mem_cons.mp hy with hya | hyt
    · subst hya; exact le_refl _
    · exact hs.1 y hyt

/-- Claim C2: `validate_sequence_and_find_gaps`, applied to the accumulated
serial numbers, returns the minimum, the maximum, the missing ranges of
`[min, max]` (gap pairs rendered with a single value as `"n"` and a longer gap
as `"start-end"`, and the pairs covering exactly the absent values of
`[min, max]`), and coverage = distinct-count / (max - min + 1) × 100; in
particular for `[1,2,4,7,8]` it returns `(1, 8, ["3", "5-6"], 62.5)` and for an
empty collection `(0, 0, [], 0.0)`. -/
theorem claim2_sequence_validator :
    validateSequenceAndFindGaps [1, 2, 4, 7, 8] = (1, 8, ["3", "5-6"], 125/2)
    ∧ validateSequenceAndFindGaps [] = (0, 0, [], 0)
    ∧ (∀ (xs : List Nat) (mn mx : Nat) (ranges : List String) (cov : ℚ),
        xs ≠ [] →
        validateSequenceAndFindGaps xs = (mn, mx, ranges, cov) →
        (mn ∈ xs ∧ ∀ y ∈ xs, mn ≤ y)
        ∧ (mx ∈ xs ∧ ∀ y ∈ xs, y ≤ mx)
        ∧ cov = (xs.dedup.length : ℚ) / ((mx - mn + 1 : ℕ) : ℚ) * 100
        ∧ ranges = (gapPairs (fun e => (pySortedSet xs).contains e) mn mx).map renderGap
        ∧ (∀ v : Nat,
            (∃ p ∈ gapPairs (fun e => (pySortedSet xs).contains e) mn mx,
                p.1 ≤ v ∧ v ≤ p.2) ↔
              (mn ≤ v ∧ v ≤ mx ∧ v ∉ xs))) := by
  refine ⟨?_, by decide, ?_⟩
  · have h : validateSequenceAndFindGaps [1, 2, 4, 7, 8] =
        (1, 8, ["3", "5-6"], ((5 : ℕ) : ℚ) / ((8 : ℕ) : ℚ) * 100) := by rfl
    rw [h]
    norm_num
  · intro xs mn mx ranges cov hne heq
    have hsne : pySortedSet xs ≠ [] := by
      obtain ⟨a, ha⟩ := List.exists_mem_of_ne_nil xs hne
      exact List.ne_nil_of_mem (mem_pySortedSet.mpr ha)
    rw [validateSequenceAndFindGaps] at heq
    rw [if_neg hne, if_neg hsne] at heq
    simp only [Prod.mk.injEq] at heq
    obtain ⟨hmn, hmx, hranges, hcov⟩ := heq
    have hsorted := sorted_pySortedSet xs
    have hhead : (pySortedSet xs).headD 0 = (pySortedSet xs).head hsne := by
      rw [List.headD_eq_head?, List.head?_eq_head hsne]
      rfl
    have hlast : (pySortedSet xs).getLastD 0 = (pySortedSet xs).getLast hsne := by
      rw [List.getLastD_eq_getLast?, List.getLast?_eq_getLast _ hsne]
      rfl
    have hmn' : mn = (pySortedSet xs).head hsne := by rw [← hmn, hhead]
    have hmx' : mx = (pySortedSet xs).getLast hsne := by rw [← hmx, hlast]
    have hmnmem : mn ∈ xs := by
      rw [hmn']
      exact mem_pySortedSet.mp (List.head_mem hsne)
    have hmxmem : mx ∈ xs := by
      rw [hmx']
      exact mem_pySortedSet.mp (List.getLast_mem hsne)
    have hmnle : ∀ y ∈ xs, mn ≤ y := by
      intro y hy
      rw [hmn']
      exact sorted_head_le hsorted hsne y (mem_pySortedSet.mpr hy)
    have hmxge : ∀ y ∈ xs, y ≤ mx := by
      intro y hy
      rw [hmx']
      exact sorted_le_getLast hsorted hsne y (mem_pySortedSet.mpr hy)
    have hlemm : mn ≤ mx := hmxge mn hmnmem
    refine ⟨⟨hmnmem, hmnle⟩, ⟨hmxmem, hmxge⟩, ?_, ?_, ?_⟩
    · rw [← hcov, if_pos (by omega), length_pySortedSet, hmn, hmx]
    · rw [← hranges, hmn, hmx]
    · intro v
      have hpres : ∀ w : Nat, ((pySortedSet xs).contains w = false) ↔ w ∉ xs := by
        intro w
        rw [← Bool.not_eq_true]
        constructor
        · intro hcon hwm
          exact hcon (List.elem_iff.mpr (mem_pySortedSet.mpr hwm))
        · intro hwm hcon
          exact hwm (mem_pySortedSet.mp (List.elem_iff.mp hcon))
      have := gapPairs_spec (fun e => (pySortedSet xs).contains e) mn mx hlemm v
      rw [this, hpres v]

theorem claim2_witness :
    validateSequenceAndFindGaps [1, 2, 4, 7, 8] = (1, 8, ["3", "5-6"], 125/2)
    ∧ ((2 : Nat) ∈ [2, 5] ∧ ∀ y ∈ [2, 5], 2 ≤ y) :=
  ⟨claim2_sequence_validator.1,
    (claim2_sequence_validator.2.2 [2, 5] 2 5 ["3-4"]
      (((2 : ℕ) : ℚ) / ((4 : ℕ) : ℚ) * 100) (by decide) (by rfl)).1⟩

/-! ## Resource Monitor (`_get_memory_usage_mb`, `_check_memory_usage`) -/

/-- Source `self._memory_threshold_low = 400 * 1024 * 1024` (commented in the source
as "400MB", but the numeric value is a byte count). -/
def memoryThresholdLow : ℕ := 400 * 1024 * 1024

/-- Source `self._memory_threshold_high = 600 * 1024 * 1024`. -/
def memoryThresholdHigh : ℕ := 600 * 1024 * 1024

/-- Source `self._memory_threshold_critical = 800 * 1024 * 1024`. -/
def memoryThresholdCritical : ℕ := 800 * 1024 * 1024

/-- Source `self.min_batch_size = 2`. -/
def minBatchSize : ℕ := 2

/-- Source `self.max_batch_size = 10`. -/
def maxBatchSize : ℕ := 10

/-- Source `self.initial_batch_size = 6`. -/
def initialBatchSize : ℕ := 6

/-- Source `_get_memory_usage_mb`: returns `process.memory_info().rss / 1024 / 1024`
when psutil is importable (`rss` is the current resident set size in bytes),
and `0` on `ImportError`.  The float division is modelled exactly in `ℚ`. -/
def getMemoryUsageMb (rssBytes : Option ℕ) : ℚ :=
  match rssBytes with
  | some rss => (rss : ℚ) / 1024 / 1024
  | none => 0

/-- The monitor state touched by `_check_memory_usage`: `current_batch_size`
and `_memory_usage_history`. -/
structure MonitorState where
  currentBatchSize : ℕ
  memoryUsageHistory : List ℚ
deriving DecidableEq

/-- Source `_check_memory_usage`: sample memory, append the sample to the history,
trim the history to the last 10 entries, then compare the sample against the
three thresholds and adjust the batch size; returns whether an action
(cleanup) was taken together with the new state.  Python's `0.7` float literal
is modelled as the exact `7/10`; none of the claims under study depend on the
`2⁻⁵²`-relative rounding of `0.7`. -/
def checkMemoryUsage (rssBytes : Option ℕ) (st : MonitorState) :
    Bool × MonitorState :=
  let memoryMb := getMemoryUsageMb rssBytes
  let hist0 := st.memoryUsageHistory ++ [memoryMb]
  let hist := if 10 < hist0.length then hist0.tail else hist0
  if (memoryThresholdCritical : ℚ) < memoryMb then
    (true, ⟨max 1 (st.currentBatchSize / 2), hist⟩)
  else if (memoryThresholdHigh : ℚ) < memoryMb then
    (true, ⟨max minBatchSize (st.currentBatchSize - 1), hist⟩)
  else if (memoryThresholdLow : ℚ) < memoryMb then
    (false, ⟨max minBatchSize (st.currentBatchSize - 1), hist⟩)
  else
    if 3 ≤ hist.length ∧
        (hist.drop (hist.length - 3)).sum / 3 < (memoryThresholdLow : ℚ) * (7 / 10) then
      (false, ⟨min maxBatchSize (st.currentBatchSize + 1), hist⟩)
    else
      (false, ⟨st.currentBatchSize, hist⟩)

/-- Claim C3 counterexample: with the process resident memory at `2^30` bytes
(1 GiB), the sample recorded into the monitor's history is `1024` (the value
in megabytes), not `2^30`; the recorded sample is not the resident memory
expressed in bytes. -/
theorem claim3_counterexample :
    (checkMemoryUsage (some (2 ^ 30)) ⟨initialBatchSize, []⟩).2.memoryUsageHistory
      = [(1024 : ℚ)]
    ∧ (1024 : ℚ) ≠ (((2 : ℕ) ^ 30 : ℕ) : ℚ) := by
  constructor
  · have hmb : getMemoryUsageMb (some (2 ^ 30)) = (1024 : ℚ) := by
      unfold getMemoryUsageMb
      norm_num
    unfold checkMemoryUsage
    rw [hmb]
    norm_num [memoryThresholdCritical, memoryThresholdHigh, memoryThresholdLow]
  · norm_num

/-- Claim C3 amended: the memory sample that `_check_memory_usage` records
into its history (and compares against the thresholds) is the resident memory
divided by 1024 twice — i.e. expressed in megabytes — or `0` when psutil is
unavailable; and the history is trimmed to its last 10 entries. -/
theorem claim3_memory_sample_megabytes (rssOpt : Option ℕ) (st : MonitorState) :
    ((checkMemoryUsage rssOpt st).2.memoryUsageHistory =
      if 10 < (st.memoryUsageHistory ++ [getMemoryUsageMb rssOpt]).length
      then (st.memoryUsageHistory ++ [getMemoryUsageMb rssOpt]).tail
      else st.memoryUsageHistory ++ [getMemoryUsageMb rssOpt])
    ∧ (∀ rss : ℕ, getMemoryUsageMb (some rss) = (rss : ℚ) / 1024 / 1024)
    ∧ getMemoryUsageMb none = 0 := by
  refine ⟨?_, fun rss => rfl, rfl⟩
  unfold checkMemoryUsage
  dsimp only
  split_ifs <;> rfl

/-- Claim C4 counterexample: with the prior batch size equal to the configured
minimum (2) and a critical-level memory sample, the batch size after the check
is 1, which is strictly below the configured minimum batch size: the critical
branch floors at 1, not at `min_batch_size`. -/
theorem claim4_counterexample :
    (memoryThresholdCritical : ℚ) < getMemoryUsageMb (some (2 ^ 60))
    ∧ (checkMemoryUsage (some (2 ^ 60)) ⟨2, []⟩).2.currentBatchSize = 1
    ∧ 1 < minBatchSize := by
  have hcrit : (memoryThresholdCritical : ℚ) < getMemoryUsageMb (some (2 ^ 60)) := by
    unfold getMemoryUsageMb memoryThresholdCritical
    norm_num
  refine ⟨hcrit, ?_, by norm_num [minBatchSize]⟩
  unfold checkMemoryUsage
  rw [if_pos hcrit]
  rfl

/-- Claim C4 amended: whenever the sampled memory exceeds the critical
threshold, the memory check halves the current batch size flooring the result
at 1 (not at the configured minimum batch size); for every prior batch size,
the batch size after a critical-level check is at least 1. -/
theorem claim4_critical_halves_floor_one (rssOpt : Option ℕ) (st : MonitorState)
    (hcrit : (memoryThresholdCritical : ℚ) < getMemoryUsageMb rssOpt) :
    (checkMemoryUsage rssOpt st).2.currentBatchSize = max 1 (st.currentBatchSize / 2)
    ∧ 1 ≤ (checkMemoryUsage rssOpt st).2.currentBatchSize
    ∧ (checkMemoryUsage rssOpt st).1 = true := by
  unfold checkMemoryUsage
  rw [if_pos hcrit]
  exact ⟨rfl, le_max_left 1 _, rfl⟩

theorem claim4_witness :
    (checkMemoryUsage (some (2 ^ 60)) ⟨2, []⟩).2.currentBatchSize = max 1 (2 / 2)
    ∧ 1 ≤ (checkMemoryUsage (some (2 ^ 60)) ⟨2, []⟩).2.currentBatchSize
    ∧ (checkMemoryUsage (some (2 ^ 60)) ⟨2, []⟩).1 = true :=
  claim4_critical_halves_floor_one (some (2 ^ 60)) ⟨2, []⟩
    (by unfold getMemoryUsageMb memoryThresholdCritical; norm_num)



/-! ## Context window construction in `parse_voter_info` -/

/-- Python list slice `l[a:b]` for non-negative clamped bounds
(`l[a:b] = (l.take b).drop a`). -/
def pySlice {α : Type} (a b : Nat) (l : List α) : List α :=
  (l.take b).drop a

/-- The context window handed to `_extract_voter_details_from_context`:
`start_line = max(0, line_num - 2)`, `end_line = min(len(lines), line_num + 8)`,
`context_lines = lines[start_line:end_line]`.  (`max(0, i - 2)` over the
integers is truncated subtraction over `ℕ`; the `idx > 0` same-line branch in
the source re-assigns `start_line` the identical value and is a no-op.) -/
def contextWindowLines (lines : List Str) (lineNum : Nat) : List Str :=
  pySlice (lineNum - 2) (min lines.length (lineNum + 8)) lines

/-- Twelve distinct one-character lines, used to exhibit the right boundary of
the context window. -/
def demoWindowLines : List Str :=
  [['a'], ['b'], ['c'], ['d'], ['e'], ['f'], ['g'], ['h'], ['i'], ['j'], ['k'], ['l']]

/-- Claim C5 counterexample: for a seed on line index 2 of a 12-line page,
`2 + 8 < 12`, yet the line at index `i + 8 = 10` is not part of the context
window (the slice end `i + 8` is exclusive), contradicting the claim that the
window runs through index `i + 8` inclusive and contains the line eight lines
after the seed's line. -/
theorem claim5_counterexample :
    2 + 8 < demoWindowLines.length
    ∧ demoWindowLines.getD (2 + 8) [] ∉ contextWindowLines demoWindowLines 2 := by
  decide

/-- Claim C5 amended: the context window consists of the lines from index
`i - 2` (clamped at 0) through index `i + 7` inclusive — the slice
`lines[max(0, i-2) : min(L, i+8)]` whose end bound is exclusive; its entry at
offset `k` is line `(i - 2) + k` whenever `(i - 2) + k < min L (i + 8)`.  In
particular, when `i + 8 ≤ L` and `2 ≤ i` the window has the 10 entries
`i - 2, …, i + 7` and ends with line `i + 7`, not line `i + 8`. -/
theorem claim5_context_window (lines : List Str) (i k : Nat) :
    (contextWindowLines lines i).length = min lines.length (i + 8) - (i - 2)
    ∧ (contextWindowLines lines i)[k]? =
        (if (i - 2) + k < min lines.length (i + 8) then lines[(i - 2) + k]? else none)
    ∧ (i + 8 ≤ lines.length → 2 ≤ i →
        (contextWindowLines lines i).length = 10
        ∧ (contextWindowLines lines i)[9]? = lines[i + 7]?) := by
  have hlen : (contextWindowLines lines i).length
      = min lines.length (i + 8) - (i - 2) := by
    unfold contextWindowLines pySlice
    rw [List.length_drop, List.length_take]
    omega
  have hget : ∀ m : Nat, (contextWindowLines lines i)[m]? =
      (if (i - 2) + m < min lines.length (i + 8) then lines[(i - 2) + m]? else none) := by
    intro m
    unfold contextWindowLines pySlice
    rw [List.getElem?_drop, List.getElem?_take]
  refine ⟨hlen, hget k, fun hL hi => ⟨by omega, ?_⟩⟩
  rw [hget 9, if_pos (by omega)]
  have : i - 2 + 9 = i + 7 := by omega
  rw [this]

theorem claim5_witness :
    (contextWindowLines demoWindowLines 3).length = 10
    ∧ (contextWindowLines demoWindowLines 3)[9]? = demoWindowLines[10]? :=
  (claim5_context_window demoWindowLines 3 0).2.2 (by decide) (by decide)

/-! ## Voter records and the Incremental Sink (`append_voters_to_excel`) -/

/-- One voter record: the dictionary built in `parse_voter_info`, with the
Devanagari keys transliterated (`naav` = नाव, `vadilancheNaav` = वडिलांचे नाव,
`gharKramank` = घर क्रमांक, `vay` = वय, `ling` = लिंग, `matadaarSangh` =
मतदार संघ, `bhaagKramank` = भाग क्रमांक, and `matadaarSangh2`, `yadiKramank`,
`yadiSrNo` the three `ColumnX` parts). -/
structure Voter where
  srNo : Str
  voterId : Str
  naav : Str
  vadilancheNaav : Str
  columnX : Str
  gharKramank : Str
  vay : Str
  ling : Str
  matadaarSangh : Str
  electionType : Str
  bhaagKramank : Str
  matadaarSangh2 : Str
  yadiKramank : Str
  yadiSrNo : Str
deriving DecidableEq

/-- The row written for one voter by `append_voters_to_excel`: the 14 fields
in header order. -/
def rowOf (v : Voter) : List Str :=
  [v.srNo, v.voterId, v.naav, v.vadilancheNaav, v.columnX, v.gharKramank,
   v.vay, v.ling, v.matadaarSangh, v.electionType, v.bhaagKramank,
   v.matadaarSangh2, v.yadiKramank, v.yadiSrNo]

/-- Sink state: the rows of the primary store (the sheet below the header
row), the run-wide persisted-record counter `total_records_saved`, and the
contents of the backup location. -/
structure SinkState where
  store : List (List Str)
  totalRecordsSaved : ℕ
  backup : Option (List (List Str))
deriving DecidableEq

/-- Outcome oracle for the external spreadsheet library: the primary
read-modify-write (`load_workbook` / `ws.append` / `wb.save`) either succeeds
as a whole or raises before the save takes effect; on a raise, the backup
write itself either succeeds or raises (its exception is swallowed by the
bare `except: pass`). -/
inductive ExcelOutcome where
  | success
  | primaryFailBackupOk
  | primaryFailBackupFail
deriving DecidableEq

/-- Source `append_voters_to_excel` under the outcome oracle: the early return on an
empty list, then the `try` body (append all rows, then
`total_records_saved += len(voters)`) or the `except` arm (store and counter
untouched, best-effort backup write).  The function is total: no exception
escapes.  The `with self.lock` region serialises invocations; one invocation
is modelled. -/
def appendVotersToExcel (outcome : ExcelOutcome) (voters : List Voter)
    (st : SinkState) : SinkState :=
  if voters.isEmpty then st
  else
    match outcome with
    | .success =>
        { store := st.store ++ voters.map rowOf,
          totalRecordsSaved := st.totalRecordsSaved + voters.length,
          backup := st.backup }
    | .primaryFailBackupOk => { st with backup := some (voters.map rowOf) }
    | .primaryFailBackupFail => st

/-- Claim C7: for every non-empty batch, one invocation of the sink's append
either fully persists all records and increases the run-wide counter by
exactly the number of records, or — on a write failure — leaves the primary
store and the counter in their prior state, attempting a best-effort backup
write; the embedding is a total function, reflecting that the exception does
not propagate to the caller. -/
theorem claim7_sink_append (outcome : ExcelOutcome) (voters : List Voter)
    (st : SinkState) (hne : voters ≠ []) :
    (outcome = .success →
      (appendVotersToExcel outcome voters st).store = st.store ++ voters.map rowOf
      ∧ (appendVotersToExcel outcome voters st).totalRecordsSaved
          = st.totalRecordsSaved + voters.length
      ∧ (appendVotersToExcel outcome voters st).backup = st.backup)
    ∧ (outcome ≠ .success →
      (appendVotersToExcel outcome voters st).store = st.store
      ∧ (appendVotersToExcel outcome voters st).totalRecordsSaved
          = st.totalRecordsSaved)
    ∧ (outcome = .primaryFailBackupOk →
      (appendVotersToExcel outcome voters st).backup = some (voters.map rowOf)) := by
  have hemp : voters.isEmpty = false := by
    cases voters with
    | nil => exact absurd rfl hne
    | cons v vs => rfl
  unfold appendVotersToExcel
  rw [hemp]
  cases outcome <;> simp

/-- A voter record with every field empty, used as a concrete witness input. -/
def blankVoter : Voter :=
  ⟨[], [], [], [], [], [], [], [], [], [], [], [], [], []⟩

theorem claim7_witness :
    ((ExcelOutcome.primaryFailBackupOk = ExcelOutcome.success →
      (appendVotersToExcel .primaryFailBackupOk [blankVoter] ⟨[], 0, none⟩).store
          = [] ++ [blankVoter].map rowOf
      ∧ (appendVotersToExcel .primaryFailBackupOk [blankVoter] ⟨[], 0, none⟩).totalRecordsSaved
          = 0 + [blankVoter].length
      ∧ (appendVotersToExcel .primaryFailBackupOk [blankVoter] ⟨[], 0, none⟩).backup = none)
    ∧ (ExcelOutcome.primaryFailBackupOk ≠ ExcelOutcome.success →
      (appendVotersToExcel .primaryFailBackupOk [blankVoter] ⟨[], 0, none⟩).store = []
      ∧ (appendVotersToExcel .primaryFailBackupOk [blankVoter] ⟨[], 0, none⟩).totalRecordsSaved = 0)
    ∧ (ExcelOutcome.primaryFailBackupOk = ExcelOutcome.primaryFailBackupOk →
      (appendVotersToExcel .primaryFailBackupOk [blankVoter] ⟨[], 0, none⟩).backup
          = some ([blankVoter].map rowOf))) :=
  claim7_sink_append .primaryFailBackupOk [blankVoter] ⟨[], 0, none⟩ (by decide)

/-! ## Image Batch Scheduler (`_process_image_batch`,
`extract_text_from_pdf_batched`) -/

/-- Source `process_single_image` inside `_process_image_batch`: OCR one page; any
exception (`MemoryError` or otherwise) degrades to the empty text for that
page — both `except` arms `return (page_num, "")`. -/
def processSingleImage (pageNum : ℕ) (ocrResult : Except Unit String) :
    ℕ × String :=
  match ocrResult with
  | .ok text => (pageNum, text)
  | .error _ => (pageNum, "")

/-- The store loop of `extract_text_from_pdf_batched`:
`page_texts[page_num - 1] = text`, guarded by
`page_num - 1 < len(page_texts)`. -/
def storeBatchResults (pageTexts : List String)
    (results : List (ℕ × String)) : List String :=
  results.foldl
    (fun ts pt => if pt.1 - 1 < ts.length then ts.set (pt.1 - 1) pt.2 else ts)
    pageTexts

/-- Source `results.sort(key=lambda x: x[0])` at the end of `_process_image_batch`:
stable sort of the batch results by page number. -/
def sortBatchResults (results : List (ℕ × String)) : List (ℕ × String) :=
  results.mergeSort (fun a b => a.1 ≤ b.1)

/-- One iteration of the batch loop of `extract_text_from_pdf_batched` under
an orchestration-outcome oracle: on success the batch's sorted per-page
results are stored into the pre-allocated array; on an orchestration-level
exception every page index of the batch's range is set to the empty string;
in both cases the loop continues with `batch_start = batch_end`. -/
def batchStep (pageTexts : List String) (batchPages : List ℕ) (batchEnd : ℕ)
    (outcome : Except Unit (List (ℕ × String))) : List String × ℕ :=
  match outcome with
  | .ok results => (storeBatchResults pageTexts (sortBatchResults results), batchEnd)
  | .error _ =>
      (batchPages.foldl (fun ts i => if i < ts.length then ts.set i "" else ts) pageTexts,
       batchEnd)

theorem storeEmpty_getElem (batchPages : List ℕ) :
    ∀ (ts : List String) (i : ℕ),
      (batchPages.foldl (fun ts j => if j < ts.length then ts.set j "" else ts) ts)[i]?
        = if i ∈ batchPages ∧ i < ts.length then some "" else ts[i]? := by
  induction batchPages with
  | nil =>
    intro ts i
    simp
  | cons j rest ih =>
    intro ts i
    rw [List.foldl_cons]
    by_cases hj : j < ts.length
    · rw [if_pos hj, ih (ts.set j "") i, List.length_set]
      by_cases hmem : i ∈ rest ∧ i < ts.length
      · rw [if_pos hmem, if_pos ⟨List.mem_cons_of_mem j hmem.1, hmem.2⟩]
      · rw [if_neg hmem, List.getElem?_set]
        by_cases hij : j = i
        · subst hij
          rw [if_pos rfl, if_pos hj, if_pos ⟨List.mem_cons_self j rest, hj⟩]
        · rw [if_neg hij]
          by_cases hcons : i ∈ j :: rest ∧ i < ts.length
          · exact absurd ⟨(List.mem_cons.mp hcons.1).resolve_left
              (fun h => hij h.symm), hcons.2⟩ hmem
          · rw [if_neg hcons]
    · rw [if_neg hj, ih ts i]
      by_cases hmem : i ∈ rest ∧ i < ts.length
      · rw [if_pos hmem, if_pos ⟨List.mem_cons_of_mem j hmem.1, hmem.2⟩]
      · rw [if_neg hmem]
        by_cases hcons : i ∈ j :: rest ∧ i < ts.length
        · rcases List.mem_cons.mp hcons.1 with hij | hir
          · subst hij
            exact absurd hcons.2 hj
          · exact absurd ⟨hir, hcons.2⟩ hmem
        · rw [if_neg hcons]

/-- Claim C8: an orchestration-level exception on a batch assigns the empty
string to every page index of the batch's range and continues with the next
batch (the loop resumes at `batch_end`); a failure isolated to a single page
yields the empty string for that page only, while a successful page returns
its own text. -/
theorem claim8_batch_failure_degrades (pageTexts : List String)
    (batchPages : List ℕ) (batchEnd : ℕ) (p : ℕ) :
    (∀ i ∈ batchPages, i < pageTexts.length →
      ((batchStep pageTexts batchPages batchEnd (.error ())).1)[i]? = some "")
    ∧ (batchStep pageTexts batchPages batchEnd (.error ())).2 = batchEnd
    ∧ processSingleImage p (.error ()) = (p, "")
    ∧ (∀ s, processSingleImage p (.ok s) = (p, s)) := by
  refine ⟨fun i hi hilen => ?_, rfl, rfl, fun s => rfl⟩
  show (batchPages.foldl (fun ts j => if j < ts.length then ts.set j "" else ts)
    pageTexts)[i]? = some ""
  rw [storeEmpty_getElem batchPages pageTexts i, if_pos ⟨hi, hilen⟩]

theorem claim8_witness :
    ((batchStep ["a", "b", "c"] [1, 2] 3 (.error ())).1)[1]? = some ""
    ∧ (batchStep ["a", "b", "c"] [1, 2] 3 (.error ())).2 = 3
    ∧ processSingleImage 7 (.error ()) = (7, "")
    ∧ (∀ s, processSingleImage 7 (.ok s) = (7, s)) :=
  have h := claim8_batch_failure_degrades ["a", "b", "c"] [1, 2] 3 7
  ⟨h.1 1 (by decide) (by decide), h.2.1, h.2.2.1, h.2.2.2⟩

theorem length_storeBatchResults (results : List (ℕ × String)) :
    ∀ ts : List String, (storeBatchResults ts results).length = ts.length := by
  induction results with
  | nil => intro ts; rfl
  | cons r rest ih =>
    intro ts
    rw [storeBatchResults, List.foldl_cons]
    by_cases h : r.1 - 1 < ts.length
    · rw [if_pos h]
      have := ih (ts.set (r.1 - 1) r.2)
      rw [storeBatchResults] at this
      rw [this, List.length_set]
    · rw [if_neg h]
      have := ih ts
      rw [storeBatchResults] at this
      rw [this]

theorem storeBatchResults_getElem_notMem (results : List (ℕ × String)) :
    ∀ (ts : List String) (j : ℕ), (∀ pt ∈ results, pt.1 - 1 ≠ j) →
      (storeBatchResults ts results)[j]? = ts[j]? := by
  induction results with
  | nil => intro ts j _; rfl
  | cons r rest ih =>
    intro ts j hall
    rw [storeBatchResults, List.foldl_cons]
    have hrest : ∀ pt ∈ rest, pt.1 - 1 ≠ j :=
      fun pt hpt => hall pt (List.mem_cons_of_mem r hpt)
    by_cases h : r.1 - 1 < ts.length
    · rw [if_pos h]
      have := ih (ts.set (r.1 - 1) r.2) j hrest
      rw [storeBatchResults] at this
      rw [this, List.getElem?_set, if_neg (hall r (List.mem_cons_self r rest))]
    · rw [if_neg h]
      have := ih ts j hrest
      rw [storeBatchResults] at this
      rw [this]

theorem storeBatchResults_getElem_mem (results : List (ℕ × String)) :
    ∀ (ts : List String) (p : ℕ) (t : String),
      (results.map Prod.fst).Nodup →
      (∀ q ∈ results.map Prod.fst, 1 ≤ q) →
      (p, t) ∈ results → p - 1 < ts.length →
      (storeBatchResults ts results)[p - 1]? = some t := by
  induction results with
  | nil => intro ts p t _ _ hmem _; simp at hmem
  | cons r rest ih =>
    intro ts p t hnd hpos hmem hlt
    rw [storeBatchResults, List.foldl_cons]
    rw [List.map_cons, List.nodup_cons] at hnd
    rcases List.mem_cons.mp hmem with heq | hmem'
    · subst heq
      simp only at hnd hlt ⊢
      rw [if_pos hlt]
      have hnotouch : ∀ pt ∈ rest, pt.1 - 1 ≠ p - 1 := by
        intro pt hpt hcontra
        have hq : pt.1 ∈ rest.map Prod.fst := List.mem_map_of_mem Prod.fst hpt
        have hq1 : 1 ≤ pt.1 := hpos pt.1 (List.mem_cons_of_mem _ hq)
        have hp1 : 1 ≤ p := hpos p (List.mem_cons_self _ _)
        have : pt.1 = p := by omega
        exact hnd.1 (this ▸ hq)
      have := storeBatchResults_getElem_notMem rest (ts.set (p - 1) t) (p - 1) hnotouch
      rw [storeBatchResults] at this
      rw [this, List.getElem?_set, if_pos rfl, if_pos hlt]
    · have hrest_nd : (rest.map Prod.fst).Nodup := hnd.2
      have hrest_pos : ∀ q ∈ rest.map Prod.fst, 1 ≤ q :=
        fun q hq => hpos q (List.mem_cons_of_mem _ hq)
      by_cases h : r.1 - 1 < ts.length
      · rw [if_pos h]
        have := ih (ts.set (r.1 - 1) r.2) p t hrest_nd hrest_pos hmem'
          (by rw [List.length_set]; exact hlt)
        rw [storeBatchResults] at this
        rw [this]
      · rw [if_neg h]
        have := ih ts p t hrest_nd hrest_pos hmem' hlt
        rw [storeBatchResults] at this
        rw [this]

/-- Claim C9: the full-document text array produced after reassembly is
independent of the order in which per-page `(page index, text)` results
complete: batch results are sorted by page index before being written
(`results.sort(key=lambda x: x[0])`), the entry at position `i` of the output
holds the text of page `i + 1`, and any permutation of the completion order
yields the same output array. -/
theorem claim9_reassembly_order_independent
    (pageTexts : List String) (batchPages : List ℕ) (batchEnd : ℕ)
    (r1 r2 : List (ℕ × String))
    (hnd : (r1.map Prod.fst).Nodup)
    (hpos : ∀ q ∈ r1.map Prod.fst, 1 ≤ q)
    (hperm : r1.Perm r2) :
    (batchStep pageTexts batchPages batchEnd (.ok r1)).1
      = storeBatchResults pageTexts (sortBatchResults r1)
    ∧ (batchStep pageTexts batchPages batchEnd (.ok r1)).1
        = (batchStep pageTexts batchPages batchEnd (.ok r2)).1
    ∧ (∀ i t, (i + 1, t) ∈ r1 → i < pageTexts.length →
        ((batchStep pageTexts batchPages batchEnd (.ok r1)).1)[i]? = some t)
    ∧ List.Pairwise (fun a b : ℕ × String => a.1 ≤ b.1) (sortBatchResults r1) := by
  have hs1 : (sortBatchResults r1).Perm r1 := List.mergeSort_perm r1 _
  have hs2 : (sortBatchResults r2).Perm r2 := List.mergeSort_perm r2 _
  have hnd2 : (r2.map Prod.fst).Nodup := ((hperm.map Prod.fst).nodup_iff).mp hnd
  have hpos2 : ∀ q ∈ r2.map Prod.fst, 1 ≤ q :=
    fun q hq => hpos q ((hperm.map Prod.fst).mem_iff.mpr hq)
  have hnds1 : ((sortBatchResults r1).map Prod.fst).Nodup :=
    ((hs1.map Prod.fst).nodup_iff).mpr hnd
  have hnds2 : ((sortBatchResults r2).map Prod.fst).Nodup :=
    ((hs2.map Prod.fst).nodup_iff).mpr hnd2
  have hposs1 : ∀ q ∈ (sortBatchResults r1).map Prod.fst, 1 ≤ q :=
    fun q hq => hpos q ((hs1.map Prod.fst).mem_iff.mp hq)
  have hposs2 : ∀ q ∈ (sortBatchResults r2).map Prod.fst, 1 ≤ q :=
    fun q hq => hpos2 q ((hs2.map Prod.fst).mem_iff.mp hq)
  refine ⟨rfl, ?_, ?_, ?_⟩
  · show storeBatchResults pageTexts (sortBatchResults r1)
      = storeBatchResults pageTexts (sortBatchResults r2)
    apply List.ext_getElem?
    intro j
    by_cases hex : ∃ pt ∈ r1, pt.1 - 1 = j
    · obtain ⟨⟨p, t⟩, hmem, hpj⟩ := hex
      simp only at hpj
      by_cases hjlen : j < pageTexts.length
      · have h1 := storeBatchResults_getElem_mem (sortBatchResults r1) pageTexts p t
          hnds1 hposs1 (hs1.mem_iff.mpr hmem) (by rw [hpj]; exact hjlen)
        have h2 := storeBatchResults_getElem_mem (sortBatchResults r2) pageTexts p t
          hnds2 hposs2 (hs2.mem_iff.mpr (hperm.mem_iff.mp hmem)) (by rw [hpj]; exact hjlen)
        rw [hpj] at h1 h2
        rw [h1, h2]
      · rw [List.getElem?_eq_none
            (by rw [length_storeBatchResults]; omega),
          List.getElem?_eq_none
            (by rw [length_storeBatchResults]; omega)]
    · push_neg at hex
      rw [storeBatchResults_getElem_notMem (sortBatchResults r1) pageTexts j
          (fun pt hpt => hex pt (hs1.mem_iff.mp hpt)),
        storeBatchResults_getElem_notMem (sortBatchResults r2) pageTexts j
          (fun pt hpt => hex pt (hperm.mem_iff.mpr (hs2.mem_iff.mp hpt)))]
  · intro i t hmem hilen
    show (storeBatchResults pageTexts (sortBatchResults r1))[i]? = some t
    have h1 := storeBatchResults_getElem_mem (sortBatchResults r1) pageTexts (i + 1) t
      hnds1 hposs1 (hs1.mem_iff.mpr hmem) (by simpa using hilen)
    simpa using h1
  · have htrans : ∀ a b c : ℕ × String,
        (decide (a.1 ≤ b.1)) = true → (decide (b.1 ≤ c.1)) = true →
        (decide (a.1 ≤ c.1)) = true := by
      intro a b c h1 h2
      simp only [decide_eq_true_eq] at h1 h2 ⊢
      omega
    have htotal : ∀ a b : ℕ × String,
        ((decide (a.1 ≤ b.1)) || (decide (b.1 ≤ a.1))) = true := by
      intro a b
      rcases Nat.le_total a.1 b.1 with h | h <;> simp [h]
    have := List.sorted_mergeSort htrans htotal r1
    exact this.imp (fun h => of_decide_eq_true h)

/-! ## Voter-ID Recognizer (`parse_voter_info`, lines 677–760):
normalisation and validation of one raw candidate match. -/

/-- The character mapping of `convert_marathi_numbers_to_english`: each
Devanagari digit to the corresponding ASCII digit, all other characters
unchanged.  (The source performs ten successive `str.replace` calls; since the
ten sources are distinct single characters and no target is itself a
Devanagari digit, that chain is this single per-character map.) -/
def convChar (c : Char) : Char :=
  if c = '०' then '0' else if c = '१' then '1' else if c = '२' then '2'
  else if c = '३' then '3' else if c = '४' then '4' else if c = '५' then '5'
  else if c = '६' then '6' else if c = '७' then '7' else if c = '८' then '8'
  else if c = '९' then '9' else c

/-- Source `convert_marathi_numbers_to_english`. -/
def convertMarathiNumbersToEnglish (s : Str) : Str :=
  s.map convChar

/-- Python `str.upper()`; of the characters admitted by the five voter-ID
patterns only ASCII lowercase letters are affected, which is exactly
`Char.toUpper`. -/
def pyUpper (s : Str) : Str :=
  s.map Char.toUpper

/-- The noise-stripping chain
`.replace('$', 'S').replace('॥', '').replace('०', '0').replace(' ', '')`. -/
def cleanupNoise (s : Str) : Str :=
  ((((s.map (fun c => if c = '$' then 'S' else c)).filter
      (fun c => c != '॥')).map
      (fun c => if c = '०' then '0' else c)).filter
      (fun c => c != ' '))

/-- The prefix-family correction rules applied to the first three characters
when the candidate has at least 10 characters (the `len(prefix) > k` guards in
the source always hold there).  The rules are applied sequentially exactly as
in the source: SMF/SMM, then LJZ, then ITJ. -/
def fixIdHead3 (q0 q1 q2 : Char) : Char × Char × Char :=
  let p0 := if q0 = '5' ∨ q0 = '$' then 'S' else q0
  let p1 := if q1 = '8' ∨ q1 = '6' ∨ q1 = '0' ∨ q1 = '5' then 'M' else q1
  let p0 := if p0 = 'I' ∨ p0 = '1' then 'L' else p0
  let p1 := if p1 = 'I' ∨ p1 = '1' ∨ p1 = 'i' then 'J' else p1
  let p2 := if q2 = '2' then 'Z' else q2
  if (p0 = 'L' ∨ p0 = '1' ∨ p0 = 'l') ∧ (p1 = 'T' ∨ p1 = '7' ∨ p1 = 't') then
    ('I', 'T', p2)
  else (p0, p1, p2)

/-- The digit-confusion mapping applied to the numeric portion:
`O→0, I→1, l→1, Z→2, S→5, B→8, G→6, C→0` (the successive `str.replace`
calls collapse to one per-character map: no target character is the source of
a later replace). -/
def fixDigitChar (c : Char) : Char :=
  if c = 'O' then '0' else if c = 'I' then '1' else if c = 'l' then '1'
  else if c = 'Z' then '2' else if c = 'S' then '5' else if c = 'B' then '8'
  else if c = 'G' then '6' else if c = 'C' then '0' else c


/-- The length-guarded correction step of the normaliser: when at least 10
characters remain, apply the prefix corrections to the first three characters
and the digit-confusion corrections to the rest. -/
def applyCorrections (v : Str) : Str :=
  match v with
  | q0 :: q1 :: q2 :: rest =>
    if 7 ≤ rest.length then
      (fixIdHead3 q0 q1 q2).1 :: (fixIdHead3 q0 q1 q2).2.1
        :: (fixIdHead3 q0 q1 q2).2.2 :: rest.map fixDigitChar
    else v
  | _ => v

/-- Normalisation of one raw matched candidate (lines 683–727):
`match.group().strip()`, upper-case, Devanagari→ASCII digits, noise stripping,
then the prefix/digit corrections when at least 10 characters remain. -/
def normalizeVoterId (raw : Str) : Str :=
  applyCorrections (cleanupNoise (convertMarathiNumbersToEnglish (pyUpper (pyStrip raw))))

/-- Classification of one candidate by the post-normalisation enforcement
(lines 729–745): truncate to 10 characters if longer; reject if shorter than
10; reject if the 7-character numeric part has fewer than 5 digits
(`c.isdigit()`); otherwise accept. -/
inductive CandidateResult where
  | accepted (id : Str)
  | rejectedShort
  | rejectedFewDigits
deriving DecidableEq

/-- Source `if len(voter_id) > 10: voter_id = voter_id[:10]` (line 730). -/
def truncate10 (v : Str) : Str :=
  if 10 < v.length then v.take 10 else v

/-- Source `classifyCandidate` applies `normalizeVoterId` and then the
exactly-10-characters and at-least-5-digits checks; the digit count is
`sum(1 for c in voter_id[3:] if c.isdigit())`. -/
def classifyCandidate (raw : Str) : CandidateResult :=
  let v2 := truncate10 (normalizeVoterId raw)
  if v2.length < 10 then .rejectedShort
  else
    if ((v2.drop 3).filter pyIsDigit).length < 5 then .rejectedFewDigits
    else .accepted v2

/-- Not a Devanagari digit. -/
abbrev NotDeva (c : Char) : Prop :=
  ¬(2406 ≤ c.toNat ∧ c.toNat ≤ 2415)

theorem notDeva_convChar (a : Char) : NotDeva (convChar a) := by
  unfold convChar
  split_ifs with h0 h1 h2 h3 h4 h5 h6 h7 h8 h9
  · decide
  · decide
  · decide
  · decide
  · decide
  · decide
  · decide
  · decide
  · decide
  · decide
  · rintro ⟨hlo, hhi⟩
    have hof := Char.ofNat_toNat a
    interval_cases h : a.toNat
    · exact h0 (by rw [← hof])
    · exact h1 (by rw [← hof])
    · exact h2 (by rw [← hof])
    · exact h3 (by rw [← hof])
    · exact h4 (by rw [← hof])
    · exact h5 (by rw [← hof])
    · exact h6 (by rw [← hof])
    · exact h7 (by rw [← hof])
    · exact h8 (by rw [← hof])
    · exact h9 (by rw [← hof])

theorem notDeva_dollarFix {x : Char} (hx : NotDeva x) :
    NotDeva (if x = '$' then 'S' else x) := by
  by_cases h : x = '$'
  · rw [if_pos h]
    decide
  · rwa [if_neg h]

theorem notDeva_zeroFix {x : Char} (hx : NotDeva x) :
    NotDeva (if x = '०' then '0' else x) := by
  by_cases h : x = '०'
  · rw [if_pos h]
    decide
  · rwa [if_neg h]

theorem notDeva_of_mem_cleanup {s : Str} {d : Char}
    (hall : ∀ a ∈ s, NotDeva a) (hd : d ∈ cleanupNoise s) : NotDeva d := by
  unfold cleanupNoise at hd
  rw [List.mem_filter] at hd
  obtain ⟨hd, _⟩ := hd
  rw [List.mem_map] at hd
  obtain ⟨b, hb, hbd⟩ := hd
  rw [List.mem_filter] at hb
  obtain ⟨hb, _⟩ := hb
  rw [List.mem_map] at hb
  obtain ⟨a, ha, hab⟩ := hb
  subst hbd hab
  exact notDeva_zeroFix (notDeva_dollarFix (hall a ha))

theorem notDeva_of_mem_convert {s : Str} {d : Char}
    (hd : d ∈ convertMarathiNumbersToEnglish s) : NotDeva d := by
  unfold convertMarathiNumbersToEnglish at hd
  rw [List.mem_map] at hd
  obtain ⟨a, _, ha⟩ := hd
  subst ha
  exact notDeva_convChar a

theorem notDeva_fixIdHead3 {a b e : Char} (hA : NotDeva a) (hB : NotDeva b)
    (hE : NotDeva e) :
    NotDeva (fixIdHead3 a b e).1 ∧ NotDeva (fixIdHead3 a b e).2.1
      ∧ NotDeva (fixIdHead3 a b e).2.2 := by
  unfold fixIdHead3
  dsimp only
  split_ifs <;> refine ⟨?_, ?_, ?_⟩ <;> dsimp only <;>
    first
      | decide
      | exact hA
      | exact hB
      | exact hE

theorem notDeva_fixDigitChar {d : Char} (hd : NotDeva d) :
    NotDeva (fixDigitChar d) := by
  unfold fixDigitChar
  split_ifs <;> first | decide | exact hd

theorem notDeva_of_mem_applyCorrections {v : Str} {c : Char}
    (hall : ∀ a ∈ v, NotDeva a) (hc : c ∈ applyCorrections v) : NotDeva c := by
  match v with
  | [] => exact hall c hc
  | [q0] => exact hall c hc
  | [q0, q1] => exact hall c hc
  | q0 :: q1 :: q2 :: rest =>
    unfold applyCorrections at hc
    dsimp only at hc
    by_cases hlen : 7 ≤ rest.length
    · rw [if_pos hlen] at hc
      have hq0 : NotDeva q0 := hall q0 (by simp)
      have hq1 : NotDeva q1 := hall q1 (by simp)
      have hq2 : NotDeva q2 := hall q2 (by simp)
      have hfix := notDeva_fixIdHead3 hq0 hq1 hq2
      rcases List.mem_cons.mp hc with hc0 | hc'
      · subst hc0
        exact hfix.1
      · rcases List.mem_cons.mp hc' with hc1 | hc''
        · subst hc1
          exact hfix.2.1
        · rcases List.mem_cons.mp hc'' with hc2 | hcrest
          · subst hc2
            exact hfix.2.2
          · rw [List.mem_map] at hcrest
            obtain ⟨d, hd, hdc⟩ := hcrest
            subst hdc
            exact notDeva_fixDigitChar (hall d (by simp [hd]))
    · rw [if_neg hlen] at hc
      exact hall c hc

theorem notDeva_of_mem_normalize {raw : Str} {c : Char}
    (hc : c ∈ normalizeVoterId raw) : NotDeva c := by
  unfold normalizeVoterId at hc
  exact notDeva_of_mem_applyCorrections
    (fun a ha => notDeva_of_mem_cleanup (fun b hb => notDeva_of_mem_convert hb) ha) hc

theorem pyIsDigit_eq_ascii {c : Char} (h : NotDeva c) :
    pyIsDigit c = isAsciiDigit c := by
  unfold pyIsDigit isAsciiDigit
  by_cases h1 : 2406 ≤ c.toNat
  · have h2 : ¬ c.toNat ≤ 2415 := fun h2 => h ⟨h1, h2⟩
    simp [h1, h2]
  · simp [h1]

theorem truncate10_length_le (v : Str) : (truncate10 v).length ≤ 10 := by
  unfold truncate10
  split_ifs with h
  · rw [List.length_take]
    omega
  · omega

theorem truncate10_subset (v : Str) : truncate10 v ⊆ v := by
  unfold truncate10
  split_ifs with h
  · exact List.take_subset 10 v
  · exact fun a ha => ha

theorem truncate10_eq_take (v : Str) (h : 10 ≤ v.length) :
    truncate10 v = v.take 10 := by
  unfold truncate10
  split_ifs with h10
  · rfl
  · rw [List.take_of_length_le (by omega)]

/-- Every accepted voter ID is the first 10 characters of the normalised
candidate, has length exactly 10, and its last 7 characters contain at least
5 ASCII digits (the digit-count check counts `isdigit` characters, and no
Devanagari digit survives normalisation). -/
theorem classify_accepted_spec {raw : Str} {voterId : Str}
    (h : classifyCandidate raw = .accepted voterId) :
    voterId = (normalizeVoterId raw).take 10
    ∧ voterId.length = 10
    ∧ 5 ≤ ((voterId.drop 3).filter isAsciiDigit).length := by
  unfold classifyCandidate at h
  dsimp only at h
  split_ifs at h with hshort hfew
  have hid : voterId = truncate10 (normalizeVoterId raw) := by
    injection h with h'
    exact h'.symm
  subst hid
  have hlen10 : (truncate10 (normalizeVoterId raw)).length = 10 := by
    have := truncate10_length_le (normalizeVoterId raw)
    omega
  have hfilter :
      ((truncate10 (normalizeVoterId raw)).drop 3).filter pyIsDigit
        = ((truncate10 (normalizeVoterId raw)).drop 3).filter isAsciiDigit := by
    apply List.filter_congr
    intro c hc
    have hmem : c ∈ normalizeVoterId raw :=
      truncate10_subset (normalizeVoterId raw)
        (List.drop_subset 3 (truncate10 (normalizeVoterId raw)) hc)
    exact pyIsDigit_eq_ascii (notDeva_of_mem_normalize hmem)
  refine ⟨?_, hlen10, ?_⟩
  · apply truncate10_eq_take
    by_contra hcon
    push_neg at hcon
    have : (truncate10 (normalizeVoterId raw)).length < 10 := by
      unfold truncate10
      rw [if_neg (by omega)]
      omega
    omega
  · rw [← hfilter]
    omega

/-- A candidate whose normalisation is shorter than 10 characters is
classified as rejected (length enforcement). -/
theorem classify_short_spec {raw : Str}
    (h : (normalizeVoterId raw).length < 10) :
    classifyCandidate raw = .rejectedShort := by
  unfold classifyCandidate
  dsimp only
  have hv2 : truncate10 (normalizeVoterId raw) = normalizeVoterId raw := by
    unfold truncate10
    rw [if_neg (by omega)]
  rw [hv2, if_pos h]

/-- A candidate whose truncated normalisation has fewer than 5 digit
characters in its numeric part is classified as rejected (digit
validation). -/
theorem classify_fewDigits_spec {raw : Str}
    (hlen : 10 ≤ (normalizeVoterId raw).length)
    (h : (((truncate10 (normalizeVoterId raw)).drop 3).filter pyIsDigit).length < 5) :
    classifyCandidate raw = .rejectedFewDigits := by
  unfold classifyCandidate
  dsimp only
  have hlen10 : (truncate10 (normalizeVoterId raw)).length = 10 := by
    unfold truncate10
    split_ifs with h10
    · rw [List.length_take]
      omega
    · omega
  rw [if_neg (by omega), if_pos h]

/-! ## The house/serial-code pattern `\d+/\d+/\d+` and the contextual field
extractor (`_extract_voter_details_from_context`).

The `\d+/\d+/\d+` pattern is implemented directly (it has no backtracking:
`/` is not a digit, so each `\d+` takes exactly its maximal digit run).  The
Devanagari-text field patterns (name, parent name, house descriptor,
age+gender, and the two fuzzy gender searches) are supplied as oracle
parameters standing for the regex engine: each oracle returns, for a line,
the list of captured groups of the occurrences of that pattern, in order. -/

/-- Greedy match of `\d+/\d+/\d+` anchored at the start of `s`, returning the
matched text (Python `\d` on `str` patterns matches the digit scripts of the
document: ASCII and Devanagari, which `pyIsDigit` covers). -/
def matchHouseAt (s : Str) : Option Str :=
  let d1 := s.takeWhile pyIsDigit
  if d1.isEmpty then none else
  match s.drop d1.length with
  | '/' :: r1 =>
    let d2 := r1.takeWhile pyIsDigit
    if d2.isEmpty then none else
    match r1.drop d2.length with
    | '/' :: r2 =>
      let d3 := r2.takeWhile pyIsDigit
      if d3.isEmpty then none else
      some (d1 ++ '/' :: d2 ++ '/' :: d3)
    | _ => none
  | _ => none

/-- Source `re.finditer(r'\d+/\d+/\d+', s)`: scan left to right, at each position try
an anchored match; on success record it and resume after its end (matches are
leftmost and non-overlapping), otherwise advance one position.  The fuel
argument starts at `s.length`, which bounds the number of scan steps (every
step consumes at least one character). -/
def findIterHouseAux : ℕ → Str → List Str
  | 0, _ => []
  | _, [] => []
  | fuel + 1, c :: rest =>
    match matchHouseAt (c :: rest) with
    | some m => m :: findIterHouseAux fuel ((c :: rest).drop m.length)
    | none => findIterHouseAux fuel rest

/-- All matches of `\d+/\d+/\d+` on `s`, in order. -/
def findIterHouse (s : Str) : List Str :=
  findIterHouseAux s.length s

/-- Source `re.search(r'(\d+/\d+/\d+)', s)`: the leftmost match, when any. -/
def searchHouse (s : Str) : Option Str :=
  (findIterHouse s).head?

/-- Python `int(s)` on the all-digit strings produced by splitting a house
code (both ASCII and Devanagari digits parse). -/
def pyParseInt (s : Str) : Option ℕ :=
  if s ≠ [] ∧ s.all pyIsDigit then
    some (s.foldl
      (fun acc c => 10 * acc + (if 2406 ≤ c.toNat then c.toNat - 2406 else c.toNat - 48))
      0)
  else none

/-- Source `re.sub(r'\s+', ' ', name)`: each maximal whitespace run becomes a single
space (the flag records whether the current character continues a run). -/
def collapseSpacesGo : Bool → Str → Str
  | _, [] => []
  | inRun, c :: rest =>
    if pyIsSpace c then
      if inRun then collapseSpacesGo true rest
      else ' ' :: collapseSpacesGo true rest
    else c :: collapseSpacesGo false rest

/-- Source `re.sub(r'\s+', ' ', name)`. -/
def collapseSpaces (s : Str) : Str :=
  collapseSpacesGo false s

/-- Post-processing of a selected name occurrence (lines 859–862):
`.group(1).strip()`, collapse whitespace, remove the ASCII apostrophes
(`.replace` twice with the same character), strip again, and remove the
zero-width joiner U+200D. -/
def namePost (g : Str) : Str :=
  (pyStrip ((collapseSpaces (pyStrip g)).filter
    (fun c => c.toNat != 39))).filter (fun c => c.toNat != 8205)

/-- Post-processing of a selected parent-name occurrence (lines 871–874):
`.group(1).strip()`, collapse whitespace, remove the danda `।` (U+0964) and
the pipe `|`, strip again. -/
def parentPost (g : Str) : Str :=
  pyStrip (((collapseSpaces (pyStrip g)).filter
    (fun c => c.toNat != 2404)).filter (fun c => c.toNat != 124))

/-- The regex-engine oracle for the Devanagari field patterns: for each
pattern, the captured groups of its occurrences on a line, in order; for the
two gender searches, whether `re.search` succeeds. -/
structure FieldOracles where
  nameMatches : Str → List Str
  parentMatches : Str → List Str
  houseFieldMatches : Str → List Str
  ageGenderMatches : Str → List (Str × Str)
  maleSearch : Str → Bool
  femaleSearch : Str → Bool

/-- Keyword test of the name loop: `'मतदाराचे' in line and 'पूर्ण' in line`. -/
def isNameKeywordLine (l : Str) : Bool :=
  pyContains l "मतदाराचे".toList && pyContains l "पूर्ण".toList

/-- Keyword test of the parent-name loop:
`('वडिलांचे' in line or 'पतीचे' in line) and 'नाव' in line and ':' in line`. -/
def isParentKeywordLine (l : Str) : Bool :=
  (pyContains l "वडिलांचे".toList || pyContains l "पतीचे".toList)
    && pyContains l "नाव".toList && pyContains l [':']

/-- Keyword test of the house-number loop: `'घर' in line and 'क्रमांक' in line`. -/
def isHouseKeywordLine (l : Str) : Bool :=
  pyContains l "घर".toList && pyContains l "क्रमांक".toList

/-- Keyword test of the age/gender loop: `'वय' in line and 'लिंग' in line`. -/
def isAgeGenderKeywordLine (l : Str) : Bool :=
  pyContains l "वय".toList && pyContains l "लिंग".toList

/-- Column determination (lines 843–852): the first line that contains the
seed's (non-empty) house code as a substring is located; among the
`\d+/\d+/\d+` occurrences on that line, the index of the first occurrence
equal to the seed's code becomes the voter's column (0 when the code is
absent, no line contains it, or no occurrence equals it). -/
def determineVoterColumn (lines : List Str) (houseNum : Str) : ℕ :=
  match lines.find? (fun l => !houseNum.isEmpty && pyContains l houseNum) with
  | some l => ((findIterHouse l).findIdx? (fun m => m == houseNum)).getD 0
  | none => 0

/-- The name loop (lines 855–864): on the first keyword line, select the
occurrence at the voter's column when enough occurrences exist. -/
def extractStageName (o : FieldOracles) (col : ℕ) (ctx : List Str)
    (voter : Voter) : Voter :=
  match ctx.find? isNameKeywordLine with
  | some l =>
    match (o.nameMatches l)[col]? with
    | some g => { voter with naav := namePost g }
    | none => voter
  | none => voter

/-- The parent-name loop (lines 867–874). -/
def extractStageParent (o : FieldOracles) (col : ℕ) (ctx : List Str)
    (voter : Voter) : Voter :=
  match ctx.find? isParentKeywordLine with
  | some l =>
    match (o.parentMatches l)[col]? with
    | some g => { voter with vadilancheNaav := parentPost g }
    | none => voter
  | none => voter

/-- The house-number loop (lines 877–882): the selected occurrence is
`.group(1).strip()`. -/
def extractStageHouse (o : FieldOracles) (col : ℕ) (ctx : List Str)
    (voter : Voter) : Voter :=
  match ctx.find? isHouseKeywordLine with
  | some l =>
    match (o.houseFieldMatches l)[col]? with
    | some g => { voter with gharKramank := pyStrip g }
    | none => voter
  | none => voter

/-- The age/gender loop (lines 885–898): the selected occurrence yields the
age (Devanagari digits converted) and the stripped gender text, which is
resolved categorically by the two fuzzy searches. -/
def extractStageAgeGender (o : FieldOracles) (col : ℕ) (ctx : List Str)
    (voter : Voter) : Voter :=
  match ctx.find? isAgeGenderKeywordLine with
  | some l =>
    match (o.ageGenderMatches l)[col]? with
    | some m =>
      let voter := { voter with vay := convertMarathiNumbersToEnglish m.1 }
      let genderText := pyStrip m.2
      if o.maleSearch genderText then { voter with ling := "पुरुष".toList }
      else if o.femaleSearch genderText then { voter with ling := "स्त्री".toList }
      else voter
    | none => voter
  | none => voter

/-- Source `_extract_voter_details_from_context` (lines 827–898): determine the
voter's column from the house code, then run the four field loops in source
order.  (The `context` string is `'\n'.join(context_lines)` split again on
`'\n'`, which restores `context_lines`; the function is therefore modelled on
the list of lines.) -/
def extractVoterDetailsFromContext (o : FieldOracles) (ctx : List Str)
    (voter : Voter) (houseNum : Str) : Voter :=
  let col := determineVoterColumn ctx houseNum
  extractStageAgeGender o col ctx
    (extractStageHouse o col ctx
      (extractStageParent o col ctx
        (extractStageName o col ctx voter)))

/-! ## `parse_voter_info` (lines 617–825) -/

/-- The per-page counters of `parse_voter_info` (`total_matches_found`,
`valid_ids_count`, `rejected_count`). -/
structure PageStats where
  found : ℕ
  valid : ℕ
  rejected : ℕ
deriving DecidableEq

/-- One surviving seed entry (the dictionaries collected in
`voter_entries`). -/
structure VoterEntry where
  lineNum : ℕ
  voterId : Str
  houseNum : Str
  line : Str
  position : ℕ
deriving DecidableEq

/-- The caller-supplied configuration stamped onto every record
(`matadaar_sangh`, `election_type`, `ward_number`). -/
structure ParseConfig where
  matadaarSangh : Str
  electionType : Str
  wardNumber : Str

/-- Source `sorted(all_matches, key=lambda m: m.start())` followed by the
`seen_starts` deduplication: keep, in order of start offset, only the first
match at each start.  Python's sort is stable, as is insertion sort, so among
equal starts the match of the earlier (stricter) pattern is kept.  The
run-long `processed_positions` check cannot fire after this per-line
deduplication (positions carry the line index) and is omitted. -/
def dedupByStart (ms : List (ℕ × Str)) : List (ℕ × Str) :=
  ((ms.insertionSort (fun a b => a.1 ≤ b.1)).foldl
    (fun (acc : List (ℕ × Str) × List ℕ) m =>
      if m.1 ∈ acc.2 then acc else (acc.1 ++ [m], m.1 :: acc.2))
    ([], [])).1

/-- Processing of one surviving match (lines 677–760): count it, classify the
candidate, and on acceptance search the rest of the line
(`line[match.end():]`) for a house code and append the seed entry; on
rejection only the rejected counter moves. -/
def processOneMatch (line : Str) (i : ℕ)
    (acc : List VoterEntry × PageStats) (m : ℕ × Str) :
    List VoterEntry × PageStats :=
  let found := acc.2.found + 1
  match classifyCandidate m.2 with
  | .rejectedShort => (acc.1, ⟨found, acc.2.valid, acc.2.rejected + 1⟩)
  | .rejectedFewDigits => (acc.1, ⟨found, acc.2.valid, acc.2.rejected + 1⟩)
  | .accepted voterId =>
    (acc.1 ++ [⟨i, voterId, (searchHouse (line.drop (m.1 + m.2.length))).getD [], line, m.1⟩],
     ⟨found, acc.2.valid + 1, acc.2.rejected⟩)

/-- The first pass of `parse_voter_info`: for each line, the matcher oracle
returns the merged `finditer` results of the five voter-ID patterns as
`(start offset, matched text)` pairs; they are sorted by start, deduplicated
by start, and each survivor is processed in order. -/
def collectVoterEntries (matcher : Str → List (ℕ × Str)) (lines : List Str) :
    List VoterEntry × PageStats :=
  lines.enum.foldl
    (fun acc p => (dedupByStart (matcher p.2)).foldl (processOneMatch p.2 p.1) acc)
    ([], ⟨0, 0, 0⟩)

/-- The second pass of `parse_voter_info` (lines 763–814) for one entry:
split the house code `A/B/C` into its three parts, build the record carrying
the caller-supplied configuration, enrich it from the context window, and
parse the serial number for sequence validation (`int(yadi_sr_no)`, with
`ValueError` swallowed). -/
def buildVoter (o : FieldOracles) (cfg : ParseConfig) (lines : List Str)
    (e : VoterEntry) : Voter × Option ℕ :=
  let parts := e.houseNum.splitOn '/'
  let ok := !e.houseNum.isEmpty && parts.length == 3
  let matadaarSangh2 := if ok then parts.getD 0 [] else []
  let yadiNumber := if ok then parts.getD 1 [] else []
  let yadiSrNo := if ok then parts.getD 2 [] else []
  let voter0 : Voter :=
    { srNo := yadiSrNo, voterId := e.voterId, naav := [], vadilancheNaav := [],
      columnX := e.houseNum, gharKramank := [], vay := [], ling := [],
      matadaarSangh := cfg.matadaarSangh, electionType := cfg.electionType,
      bhaagKramank := cfg.wardNumber, matadaarSangh2 := matadaarSangh2,
      yadiKramank := yadiNumber, yadiSrNo := yadiSrNo }
  let voter := extractVoterDetailsFromContext o
    (contextWindowLines lines e.lineNum) voter0 e.houseNum
  (voter, if yadiSrNo.isEmpty then none else pyParseInt yadiSrNo)

/-- The value of one `parse_voter_info` call: the returned records, the
per-page counters, and the serial numbers appended to `all_sr_numbers`. -/
structure ParseResult where
  voters : List Voter
  stats : PageStats
  srNumbers : List ℕ

/-- Source `parse_voter_info`: split the page text into lines, collect the seed
entries and counters, then build one record per entry. -/
def parseVoterInfo (o : FieldOracles) (matcher : Str → List (ℕ × Str))
    (cfg : ParseConfig) (text : Str) : ParseResult :=
  let lines := text.splitOn '\n'
  let es := collectVoterEntries matcher lines
  let built := es.1.map (buildVoter o cfg lines)
  ⟨built.map Prod.fst, es.2, (built.map Prod.snd).reduceOption⟩

/-- The run-level statistics accumulators of `VoterListOCR.__init__`
(lines 79–81). -/
structure RunStats where
  totalPatternsFound : ℕ
  totalValidIds : ℕ
  totalRejectedIds : ℕ
deriving DecidableEq

/-- All three accumulators start at 0. -/
def initialRunStats : RunStats := ⟨0, 0, 0⟩

/-- The `self.total_* += ...` updates at the end of `parse_voter_info`
(lines 817–819). -/
def updateRunStats (S : RunStats) (d : PageStats) : RunStats :=
  ⟨S.totalPatternsFound + d.found, S.totalValidIds + d.valid,
   S.totalRejectedIds + d.rejected⟩

theorem foldl_preserves {α β : Type} (P : β → Prop) (f : β → α → β)
    (hstep : ∀ b a, P b → P (f b a)) :
    ∀ (l : List α) (b : β), P b → P (l.foldl f b) := by
  intro l
  induction l with
  | nil => intro b hb; exact hb
  | cons a t ih =>
    intro b hb
    rw [List.foldl_cons]
    exact ih (f b a) (hstep b a hb)

/-- The accounting invariant of the first pass: every counted candidate is
exactly one of valid or rejected, and one entry exists per valid candidate. -/
def EntriesInv (acc : List VoterEntry × PageStats) : Prop :=
  acc.2.found = acc.2.valid + acc.2.rejected ∧ acc.1.length = acc.2.valid

theorem processOneMatch_entriesInv (line : Str) (i : ℕ)
    (acc : List VoterEntry × PageStats) (m : ℕ × Str)
    (h : EntriesInv acc) : EntriesInv (processOneMatch line i acc m) := by
  obtain ⟨h1, h2⟩ := h
  unfold processOneMatch
  rcases hcl : classifyCandidate m.2 with voterId | _ | _ <;>
    dsimp only <;> constructor <;>
      simp only [List.length_append, List.length_cons, List.length_nil] <;> omega

theorem collectVoterEntries_entriesInv (matcher : Str → List (ℕ × Str))
    (lines : List Str) : EntriesInv (collectVoterEntries matcher lines) := by
  unfold collectVoterEntries
  apply foldl_preserves EntriesInv
  · intro b p hb
    exact foldl_preserves EntriesInv (processOneMatch p.2 p.1)
      (processOneMatch_entriesInv p.2 p.1) (dedupByStart (matcher p.2)) b hb
  · exact ⟨rfl, rfl⟩

/-- Every collected entry's voter ID came from an accepted classification. -/
def EntriesAccepted (acc : List VoterEntry × PageStats) : Prop :=
  ∀ e ∈ acc.1, ∃ raw, classifyCandidate raw = .accepted e.voterId

theorem processOneMatch_entriesAccepted (line : Str) (i : ℕ)
    (acc : List VoterEntry × PageStats) (m : ℕ × Str)
    (h : EntriesAccepted acc) : EntriesAccepted (processOneMatch line i acc m) := by
  unfold processOneMatch
  rcases hcl : classifyCandidate m.2 with voterId | _ | _ <;> dsimp only
  · intro e he
    rcases List.mem_append.mp he with hold | hnew
    · exact h e hold
    · simp only [List.mem_singleton] at hnew
      subst hnew
      exact ⟨m.2, hcl⟩
  · exact h
  · exact h

theorem collectVoterEntries_accepted (matcher : Str → List (ℕ × Str))
    (lines : List Str) : EntriesAccepted (collectVoterEntries matcher lines) := by
  unfold collectVoterEntries
  apply foldl_preserves EntriesAccepted
  · intro b p hb
    exact foldl_preserves EntriesAccepted (processOneMatch p.2 p.1)
      (processOneMatch_entriesAccepted p.2 p.1) (dedupByStart (matcher p.2)) b hb
  · intro e he
    simp at he

theorem extractStageName_voterId (o : FieldOracles) (col : ℕ) (ctx : List Str)
    (v : Voter) : (extractStageName o col ctx v).voterId = v.voterId := by
  unfold extractStageName
  cases ctx.find? isNameKeywordLine with
  | none => rfl
  | some l =>
    dsimp only
    cases (o.nameMatches l)[col]? with
    | none => rfl
    | some g => rfl

theorem extractStageParent_voterId (o : FieldOracles) (col : ℕ) (ctx : List Str)
    (v : Voter) : (extractStageParent o col ctx v).voterId = v.voterId := by
  unfold extractStageParent
  cases ctx.find? isParentKeywordLine with
  | none => rfl
  | some l =>
    dsimp only
    cases (o.parentMatches l)[col]? with
    | none => rfl
    | some g => rfl

theorem extractStageHouse_voterId (o : FieldOracles) (col : ℕ) (ctx : List Str)
    (v : Voter) : (extractStageHouse o col ctx v).voterId = v.voterId := by
  unfold extractStageHouse
  cases ctx.find? isHouseKeywordLine with
  | none => rfl
  | some l =>
    dsimp only
    cases (o.houseFieldMatches l)[col]? with
    | none => rfl
    | some g => rfl

theorem extractStageAgeGender_voterId (o : FieldOracles) (col : ℕ) (ctx : List Str)
    (v : Voter) : (extractStageAgeGender o col ctx v).voterId = v.voterId := by
  unfold extractStageAgeGender
  cases ctx.find? isAgeGenderKeywordLine with
  | none => rfl
  | some l =>
    dsimp only
    cases (o.ageGenderMatches l)[col]? with
    | none => rfl
    | some m =>
      dsimp only
      split_ifs <;> rfl

theorem extract_voterId (o : FieldOracles) (ctx : List Str) (v : Voter)
    (houseNum : Str) :
    (extractVoterDetailsFromContext o ctx v houseNum).voterId = v.voterId := by
  unfold extractVoterDetailsFromContext
  rw [extractStageAgeGender_voterId, extractStageHouse_voterId,
    extractStageParent_voterId, extractStageName_voterId]

theorem buildVoter_voterId (o : FieldOracles) (cfg : ParseConfig)
    (lines : List Str) (e : VoterEntry) :
    (buildVoter o cfg lines e).1.voterId = e.voterId := by
  unfold buildVoter
  dsimp only
  rw [extract_voterId]

/-- Claim C1: every voter record produced by `parse_voter_info` carries a
voter ID of exactly 10 characters whose last 7 characters contain at least 5
ASCII digits; a normalised candidate longer than 10 characters is truncated
to its first 10 characters; a candidate shorter than 10 characters, or whose
truncated numeric part has fewer than 5 digits, is rejected — counted as
rejected, contributing no entry — so no record violating the invariant is
returned for persistence. -/
theorem claim1_voter_id_invariant :
    (∀ (o : FieldOracles) (matcher : Str → List (ℕ × Str)) (cfg : ParseConfig)
        (text : Str) (v : Voter),
        v ∈ (parseVoterInfo o matcher cfg text).voters →
        v.voterId.length = 10
        ∧ 5 ≤ ((v.voterId.drop 3).filter isAsciiDigit).length)
    ∧ (∀ raw voterId, classifyCandidate raw = .accepted voterId →
        voterId = (normalizeVoterId raw).take 10)
    ∧ (∀ raw, (normalizeVoterId raw).length < 10 →
        classifyCandidate raw = .rejectedShort)
    ∧ (∀ raw, 10 ≤ (normalizeVoterId raw).length →
        (((truncate10 (normalizeVoterId raw)).drop 3).filter pyIsDigit).length < 5 →
        classifyCandidate raw = .rejectedFewDigits)
    ∧ (∀ (line : Str) (i : ℕ) (acc : List VoterEntry × PageStats) (m : ℕ × Str),
        (classifyCandidate m.2 = .rejectedShort
          ∨ classifyCandidate m.2 = .rejectedFewDigits) →
        (processOneMatch line i acc m).1 = acc.1
        ∧ (processOneMatch line i acc m).2.rejected = acc.2.rejected + 1
        ∧ (processOneMatch line i acc m).2.found = acc.2.found + 1) := by
  refine ⟨?_, fun raw voterId h => (classify_accepted_spec h).1,
    fun raw h => classify_short_spec h,
    fun raw h1 h2 => classify_fewDigits_spec h1 h2, ?_⟩
  · intro o matcher cfg text v hv
    unfold parseVoterInfo at hv
    dsimp only at hv
    rw [List.map_map, List.mem_map] at hv
    obtain ⟨e, he, hev⟩ := hv
    have hacc := collectVoterEntries_accepted matcher (text.splitOn '\n') e he
    obtain ⟨raw, hraw⟩ := hacc
    have hid : v.voterId = e.voterId := by
      rw [← hev]
      exact buildVoter_voterId o cfg (text.splitOn '\n') e
    rw [hid]
    have := classify_accepted_spec hraw
    exact ⟨this.2.1, this.2.2⟩
  · intro line i acc m hrej
    unfold processOneMatch
    rcases hrej with h | h <;> rw [h] <;> exact ⟨rfl, rfl, rfl⟩

/-- The trivial regex-engine oracle: no field pattern ever matches. -/
def trivialOracles : FieldOracles :=
  ⟨fun _ => [], fun _ => [], fun _ => [], fun _ => [], fun _ => false, fun _ => false⟩

/-- The record produced by parsing the one-line page `"SMF1234567"` with the
trivial oracle. -/
def demoParsedVoter : Voter :=
  { srNo := [], voterId := "SMF1234567".toList, naav := [], vadilancheNaav := [],
    columnX := [], gharKramank := [], vay := [], ling := [],
    matadaarSangh := [], electionType := [], bhaagKramank := [],
    matadaarSangh2 := [], yadiKramank := [], yadiSrNo := [] }

theorem claim1_witness :
    (demoParsedVoter.voterId.length = 10
      ∧ 5 ≤ ((demoParsedVoter.voterId.drop 3).filter isAsciiDigit).length)
    ∧ classifyCandidate "SM".toList = .rejectedShort :=
  ⟨claim1_voter_id_invariant.1 trivialOracles (fun _ => [(0, "SMF1234567".toList)])
      ⟨[], [], []⟩ "SMF1234567".toList demoParsedVoter (by decide),
    claim1_voter_id_invariant.2.2.1 "SM".toList (by decide)⟩

/-- Claim C10: the statistics identity
`total_patterns_found = total_valid_ids + total_rejected_ids` holds at
initialisation, every `parse_voter_info` call classifies each counted
candidate as exactly one of valid or rejected and returns exactly one record
per newly counted valid ID, and the run-level `+=` updates preserve the
identity. -/
theorem claim10_stats_identity :
    initialRunStats.totalPatternsFound
      = initialRunStats.totalValidIds + initialRunStats.totalRejectedIds
    ∧ (∀ (o : FieldOracles) (matcher : Str → List (ℕ × Str)) (cfg : ParseConfig)
        (text : Str),
        (parseVoterInfo o matcher cfg text).stats.found
          = (parseVoterInfo o matcher cfg text).stats.valid
            + (parseVoterInfo o matcher cfg text).stats.rejected
        ∧ (parseVoterInfo o matcher cfg text).voters.length
          = (parseVoterInfo o matcher cfg text).stats.valid)
    ∧ (∀ (S : RunStats) (d : PageStats),
        S.totalPatternsFound = S.totalValidIds + S.totalRejectedIds →
        d.found = d.valid + d.rejected →
        (updateRunStats S d).totalPatternsFound
          = (updateRunStats S d).totalValidIds
            + (updateRunStats S d).totalRejectedIds) := by
  refine ⟨rfl, ?_, ?_⟩
  · intro o matcher cfg text
    have hinv := collectVoterEntries_entriesInv matcher (text.splitOn '\n')
    unfold parseVoterInfo
    dsimp only
    constructor
    · exact hinv.1
    · rw [List.map_map, List.length_map]
      exact hinv.2
  · intro S d h1 h2
    unfold updateRunStats
    dsimp only
    omega

theorem claim10_witness :
    (updateRunStats ⟨3, 2, 1⟩ ⟨4, 3, 1⟩).totalPatternsFound
      = (updateRunStats ⟨3, 2, 1⟩ ⟨4, 3, 1⟩).totalValidIds
        + (updateRunStats ⟨3, 2, 1⟩ ⟨4, 3, 1⟩).totalRejectedIds :=
  claim10_stats_identity.2.2 ⟨3, 2, 1⟩ ⟨4, 3, 1⟩ (by decide) (by decide)

theorem extractStageName_naav (o : FieldOracles) (col : ℕ) (ctx : List Str)
    (v : Voter) (l : Str) (hl : ctx.find? isNameKeywordLine = some l) :
    (extractStageName o col ctx v).naav
      = ((o.nameMatches l)[col]?).elim v.naav namePost := by
  unfold extractStageName
  rw [hl]
  dsimp only
  cases (o.nameMatches l)[col]? with
  | none => rfl
  | some g => rfl

theorem extractStageName_others (o : FieldOracles) (col : ℕ) (ctx : List Str)
    (v : Voter) :
    (extractStageName o col ctx v).vadilancheNaav = v.vadilancheNaav
    ∧ (extractStageName o col ctx v).gharKramank = v.gharKramank
    ∧ (extractStageName o col ctx v).vay = v.vay := by
  unfold extractStageName
  cases ctx.find? isNameKeywordLine with
  | none => exact ⟨rfl, rfl, rfl⟩
  | some l =>
    dsimp only
    cases (o.nameMatches l)[col]? with
    | none => exact ⟨rfl, rfl, rfl⟩
    | some g => exact ⟨rfl, rfl, rfl⟩

theorem extractStageParent_vadil (o : FieldOracles) (col : ℕ) (ctx : List Str)
    (v : Voter) (l : Str) (hl : ctx.find? isParentKeywordLine = some l) :
    (extractStageParent o col ctx v).vadilancheNaav
      = ((o.parentMatches l)[col]?).elim v.vadilancheNaav parentPost := by
  unfold extractStageParent
  rw [hl]
  dsimp only
  cases (o.parentMatches l)[col]? with
  | none => rfl
  | some g => rfl

theorem extractStageParent_others (o : FieldOracles) (col : ℕ) (ctx : List Str)
    (v : Voter) :
    (extractStageParent o col ctx v).naav = v.naav
    ∧ (extractStageParent o col ctx v).gharKramank = v.gharKramank
    ∧ (extractStageParent o col ctx v).vay = v.vay := by
  unfold extractStageParent
  cases ctx.find? isParentKeywordLine with
  | none => exact ⟨rfl, rfl, rfl⟩
  | some l =>
    dsimp only
    cases (o.parentMatches l)[col]? with
    | none => exact ⟨rfl, rfl, rfl⟩
    | some g => exact ⟨rfl, rfl, rfl⟩

theorem extractStageHouse_ghar (o : FieldOracles) (col : ℕ) (ctx : List Str)
    (v : Voter) (l : Str) (hl : ctx.find? isHouseKeywordLine = some l) :
    (extractStageHouse o col ctx v).gharKramank
      = ((o.houseFieldMatches l)[col]?).elim v.gharKramank pyStrip := by
  unfold extractStageHouse
  rw [hl]
  dsimp only
  cases (o.houseFieldMatches l)[col]? with
  | none => rfl
  | some g => rfl

theorem extractStageHouse_others (o : FieldOracles) (col : ℕ) (ctx : List Str)
    (v : Voter) :
    (extractStageHouse o col ctx v).naav = v.naav
    ∧ (extractStageHouse o col ctx v).vadilancheNaav = v.vadilancheNaav
    ∧ (extractStageHouse o col ctx v).vay = v.vay := by
  unfold extractStageHouse
  cases ctx.find? isHouseKeywordLine with
  | none => exact ⟨rfl, rfl, rfl⟩
  | some l =>
    dsimp only
    cases (o.houseFieldMatches l)[col]? with
    | none => exact ⟨rfl, rfl, rfl⟩
    | some g => exact ⟨rfl, rfl, rfl⟩

theorem extractStageAgeGender_vay (o : FieldOracles) (col : ℕ) (ctx : List Str)
    (v : Voter) (l : Str) (hl : ctx.find? isAgeGenderKeywordLine = some l) :
    (extractStageAgeGender o col ctx v).vay
      = ((o.ageGenderMatches l)[col]?).elim v.vay
          (fun m => convertMarathiNumbersToEnglish m.1) := by
  unfold extractStageAgeGender
  rw [hl]
  dsimp only
  cases (o.ageGenderMatches l)[col]? with
  | none => rfl
  | some m =>
    dsimp only
    split_ifs <;> rfl

theorem extractStageAgeGender_others (o : FieldOracles) (col : ℕ) (ctx : List Str)
    (v : Voter) :
    (extractStageAgeGender o col ctx v).naav = v.naav
    ∧ (extractStageAgeGender o col ctx v).vadilancheNaav = v.vadilancheNaav
    ∧ (extractStageAgeGender o col ctx v).gharKramank = v.gharKramank := by
  unfold extractStageAgeGender
  cases ctx.find? isAgeGenderKeywordLine with
  | none => exact ⟨rfl, rfl, rfl⟩
  | some l =>
    dsimp only
    cases (o.ageGenderMatches l)[col]? with
    | none => exact ⟨rfl, rfl, rfl⟩
    | some m =>
      dsimp only
      split_ifs <;> exact ⟨rfl, rfl, rfl⟩

/-- The seed's house code in the synthetic three-column example. -/
def houseCode11 : Str := "217/134/11".toList

/-- A synthetic line carrying three house codes in three columns. -/
def demoCodeLine : Str := "H 217/134/10 x 217/134/11 y 217/134/12".toList

/-- A synthetic name keyword line. -/
def demoNameLine : Str := "मतदाराचे पूर्ण नाव :".toList

/-- The two-line synthetic context. -/
def demoContext : List Str := [demoCodeLine, demoNameLine]

/-- A regex-engine oracle whose name pattern yields the given occurrences on
the synthetic name line and nothing anywhere else. -/
def demoOracles (ns : List Str) : FieldOracles :=
  ⟨fun l => if l = demoNameLine then ns else [],
   fun _ => [], fun _ => [], fun _ => [], fun _ => false, fun _ => false⟩

/-- Claim C6: when the seed's house code is the `k`-th (0-based) occurrence of
the `\d+/\d+/\d+` pattern on the first line containing it, each field
extraction selects the `k`-th occurrence of its own pattern on its first
keyword line (post-processed), and leaves the field unchanged (empty, as
initialised) when fewer than `k + 1` occurrences exist; in particular, with
house codes `217/134/10`, `217/134/11`, `217/134/12` in one line, the seed
carrying `217/134/11` resolves to column 1 and receives the second name
occurrence. -/
theorem claim6_column_occurrence_selection :
    (∀ (o : FieldOracles) (ctx : List Str) (voter : Voter) (houseNum : Str) (k : ℕ),
      determineVoterColumn ctx houseNum = k →
      (∀ l, ctx.find? isNameKeywordLine = some l →
        (extractVoterDetailsFromContext o ctx voter houseNum).naav
          = ((o.nameMatches l)[k]?).elim voter.naav namePost)
      ∧ (∀ l, ctx.find? isParentKeywordLine = some l →
        (extractVoterDetailsFromContext o ctx voter houseNum).vadilancheNaav
          = ((o.parentMatches l)[k]?).elim voter.vadilancheNaav parentPost)
      ∧ (∀ l, ctx.find? isHouseKeywordLine = some l →
        (extractVoterDetailsFromContext o ctx voter houseNum).gharKramank
          = ((o.houseFieldMatches l)[k]?).elim voter.gharKramank pyStrip)
      ∧ (∀ l, ctx.find? isAgeGenderKeywordLine = some l →
        (extractVoterDetailsFromContext o ctx voter houseNum).vay
          = ((o.ageGenderMatches l)[k]?).elim voter.vay
              (fun m => convertMarathiNumbersToEnglish m.1))
      ∧ (∀ l, ctx.find? isNameKeywordLine = some l →
          (o.nameMatches l).length ≤ k →
          (extractVoterDetailsFromContext o ctx voter houseNum).naav = voter.naav))
    ∧ determineVoterColumn demoContext houseCode11 = 1
    ∧ (∀ n1 n2 n3 : Str,
        (extractVoterDetailsFromContext (demoOracles [n1, n2, n3]) demoContext
          blankVoter houseCode11).naav = namePost n2) := by
  have hgen : ∀ (o : FieldOracles) (ctx : List Str) (voter : Voter)
      (houseNum : Str) (k : ℕ),
      determineVoterColumn ctx houseNum = k →
      (∀ l, ctx.find? isNameKeywordLine = some l →
        (extractVoterDetailsFromContext o ctx voter houseNum).naav
          = ((o.nameMatches l)[k]?).elim voter.naav namePost)
      ∧ (∀ l, ctx.find? isParentKeywordLine = some l →
        (extractVoterDetailsFromContext o ctx voter houseNum).vadilancheNaav
          = ((o.parentMatches l)[k]?).elim voter.vadilancheNaav parentPost)
      ∧ (∀ l, ctx.find? isHouseKeywordLine = some l →
        (extractVoterDetailsFromContext o ctx voter houseNum).gharKramank
          = ((o.houseFieldMatches l)[k]?).elim voter.gharKramank pyStrip)
      ∧ (∀ l, ctx.find? isAgeGenderKeywordLine = some l →
        (extractVoterDetailsFromContext o ctx voter houseNum).vay
          = ((o.ageGenderMatches l)[k]?).elim voter.vay
              (fun m => convertMarathiNumbersToEnglish m.1))
      ∧ (∀ l, ctx.find? isNameKeywordLine = some l →
          (o.nameMatches l).length ≤ k →
          (extractVoterDetailsFromContext o ctx voter houseNum).naav = voter.naav) := by
    intro o ctx voter houseNum k hk
    have hvnaav : ∀ w : Voter, (extractVoterDetailsFromContext o ctx w houseNum).naav
        = (extractStageName o k ctx w).naav := by
      intro w
      unfold extractVoterDetailsFromContext
      rw [hk]
      rw [(extractStageAgeGender_others o k ctx _).1,
        (extractStageHouse_others o k ctx _).1,
        (extractStageParent_others o k ctx _).1]
    refine ⟨?_, ?_, ?_, ?_, ?_⟩
    · intro l hl
      rw [hvnaav voter, extractStageName_naav o k ctx voter l hl]
    · intro l hl
      unfold extractVoterDetailsFromContext
      rw [hk]
      rw [(extractStageAgeGender_others o k ctx _).2.1,
        (extractStageHouse_others o k ctx _).2.1,
        extractStageParent_vadil o k ctx _ l hl,
        (extractStageName_others o k ctx voter).1]
    · intro l hl
      unfold extractVoterDetailsFromContext
      rw [hk]
      rw [(extractStageAgeGender_others o k ctx _).2.2,
        extractStageHouse_ghar o k ctx _ l hl,
        (extractStageParent_others o k ctx _).2.1,
        (extractStageName_others o k ctx voter).2.1]
    · intro l hl
      unfold extractVoterDetailsFromContext
      rw [hk]
      rw [extractStageAgeGender_vay o k ctx _ l hl,
        (extractStageHouse_others o k ctx _).2.2,
        (extractStageParent_others o k ctx _).2.2,
        (extractStageName_others o k ctx voter).2.2]
    · intro l hl hlen
      rw [hvnaav voter, extractStageName_naav o k ctx voter l hl,
        List.getElem?_eq_none hlen]
      rfl
  refine ⟨hgen, by decide, ?_⟩
  intro n1 n2 n3
  have h := (hgen (demoOracles [n1, n2, n3]) demoContext blankVoter houseCode11 1
    (by decide)).1 demoNameLine (by decide)
  rw [h]
  show ((if demoNameLine = demoNameLine then [n1, n2, n3] else [])[1]?).elim
    blankVoter.naav namePost = namePost n2
  rw [if_pos rfl]
  rfl

theorem claim6_witness :
    (extractVoterDetailsFromContext (demoOracles [['a'], ['b'], ['c']]) demoContext
      blankVoter houseCode11).naav
      = (((demoOracles [['a'], ['b'], ['c']]).nameMatches demoNameLine)[1]?).elim
          blankVoter.naav namePost :=
  (claim6_column_occurrence_selection.1 (demoOracles [['a'], ['b'], ['c']]) demoContext
    blankVoter houseCode11 1 (by decide)).1 demoNameLine (by decide)

theorem claim9_witness :
    (batchStep ["x", "y", "z"] [0, 1, 2] 3 (.ok [(2, "b"), (1, "a")])).1
      = (batchStep ["x", "y", "z"] [0, 1, 2] 3 (.ok [(1, "a"), (2, "b")])).1
    ∧ ((batchStep ["x", "y", "z"] [0, 1, 2] 3 (.ok [(2, "b"), (1, "a")])).1)[0]?
      = some "a" :=
  have h := claim9_reassembly_order_independent ["x", "y", "z"] [0, 1, 2] 3
    [(2, "b"), (1, "a")] [(1, "a"), (2, "b")] (by decide) (by decide) (by decide)
  ⟨h.2.1, h.2.2.1 0 "a" (by decide) (by decide)⟩
